import Mathlib

/-
  Shallow embedding of the DWARF loader in src/dwarf_loader.c (dwarves).

  Machine integers are modelled as Nat with explicit reductions modulo
  2^w at the points where the C code truncates (uint8_t loads, the
  uint32_t nr_entries array, uint64_t accumulation in get_uleb128,
  the uint16_t id in tag__recode_dwarf_bitfield).

  Functions whose body lives in dwarves.c rather than in
  src/dwarf_loader.c (the types-table search and insertion helpers and
  the list iteration macros) are modelled from the specification; each
  such definition carries a doc comment starting with
  `Modelled from the spec:`.
-/

namespace DwarfLoader

/- DWARF tag codes (dwarf.h) used by the loader. -/

def DW_TAG_array_type : Nat := 0x01
def DW_TAG_class_type : Nat := 0x02
def DW_TAG_enumeration_type : Nat := 0x04
def DW_TAG_formal_parameter : Nat := 0x05
def DW_TAG_imported_declaration : Nat := 0x08
def DW_TAG_lexical_block : Nat := 0x0b
def DW_TAG_member : Nat := 0x0d
def DW_TAG_pointer_type : Nat := 0x0f
def DW_TAG_reference_type : Nat := 0x10
def DW_TAG_structure_type : Nat := 0x13
def DW_TAG_subroutine_type : Nat := 0x15
def DW_TAG_typedef : Nat := 0x16
def DW_TAG_union_type : Nat := 0x17
def DW_TAG_ptr_to_member_type : Nat := 0x1f
def DW_TAG_subrange_type : Nat := 0x21
def DW_TAG_base_type : Nat := 0x24
def DW_TAG_const_type : Nat := 0x26
def DW_TAG_enumerator : Nat := 0x28
def DW_TAG_subprogram : Nat := 0x2e
def DW_TAG_template_type_parameter : Nat := 0x2f
def DW_TAG_variable : Nat := 0x34
def DW_TAG_volatile_type : Nat := 0x35
def DW_TAG_interface_type : Nat := 0x38
def DW_TAG_namespace : Nat := 0x39
def DW_TAG_imported_module : Nat := 0x3a

/- DWARF expression opcodes (dwarf.h). -/

def DW_OP_addr : Nat := 0x03
def DW_OP_constu : Nat := 0x10
def DW_OP_plus_uconst : Nat := 0x23
def DW_OP_reg0 : Nat := 0x50
def DW_OP_reg1 : Nat := 0x51
def DW_OP_reg31 : Nat := 0x6f
def DW_OP_breg0 : Nat := 0x70
def DW_OP_breg31 : Nat := 0x8f
def DW_OP_fbreg : Nat := 0x91

def UINT64_MAX : Nat := 2 ^ 64 - 1

/-!  ULEB128 decoding: `get_uleb128` / `__libdw_get_uleb128`.

A byte stream is modelled as `Nat → Nat`; each load is reduced mod 256
(the C code reads through a `const uint8_t *`).  One `get_uleb128_step`
ors `(b & 0x7f) << (nth * 7)` into the 64-bit accumulator. -/

/-- One `get_uleb128_step` contribution: `(__b & 0x7f) << (nth * 7)` in
uint64 arithmetic. -/
def uleb_shift (b nth : Nat) : Nat :=
  ((b &&& 0x7f) <<< (nth * 7)) % 2 ^ 64

/-- Loop body of `__libdw_get_uleb128`: steps `nth = i, i+1, ...` while
`nth < 10`; `r` is the number of remaining iterations (`10 - i`).  When
the loop exhausts without meeting a byte whose bit 7 is clear, the
function returns `UINT64_MAX`. -/
def libdw_uleb128_loop (bytes : Nat → Nat) : Nat → Nat → Nat → Nat
  | _, _, 0 => UINT64_MAX
  | acc, i, r + 1 =>
    let b := bytes i % 256
    let acc2 := acc ||| uleb_shift b i
    if b &&& 0x80 = 0 then acc2 else libdw_uleb128_loop bytes acc2 (i + 1) r

/-- The function `__libdw_get_uleb128 (acc, i, addrp)`: continues the
decoding at step `i`, running while `i < 10`. -/
def libdw_get_uleb128 (acc i : Nat) (bytes : Nat → Nat) : Nat :=
  libdw_uleb128_loop bytes acc i (10 - i)

/-- The macro `get_uleb128 (var, addr)`: performs step 0 inline, and on a
continuation bit calls `__libdw_get_uleb128` with `i = 1`. -/
def get_uleb128 (bytes : Nat → Nat) : Nat :=
  let b := bytes 0 % 256
  let v := uleb_shift b 0
  if b &&& 0x80 = 0 then v else libdw_get_uleb128 v 1 bytes

/-- The function `dwarf_expr (expr, len)`: accepts only a leading
`DW_OP_plus_uconst` or `DW_OP_constu`, decoding the following ULEB128;
any other leading opcode is reported to stderr and yields `UINT64_MAX`. -/
def dwarf_expr (expr : Nat → Nat) : Nat :=
  if expr 0 % 256 = DW_OP_plus_uconst ∨ expr 0 % 256 = DW_OP_constu then
    get_uleb128 (fun i => expr (i + 1))
  else UINT64_MAX

/-!  Location classification: `dwarf__location` / `variable__new`. -/

/-- One decoded `Dwarf_Op` of a location expression. -/
structure DwarfOp where
  atom : Nat
  number : Nat
deriving DecidableEq

/-- The `enum vlocation` of dwarves.h. -/
inductive Vlocation where
  | LOCATION_UNKNOWN
  | LOCATION_LOCAL
  | LOCATION_GLOBAL
  | LOCATION_REGISTER
  | LOCATION_OPTIMIZED
deriving DecidableEq

open Vlocation

/-- The function `dwarf__location (die, addr)`.  The `DW_AT_location`
attribute is `none` when `attr_location` fails (attribute missing or
`dwarf_getlocation` error), otherwise the decoded opcode list.  The
result pairs the classification with the (possibly updated) address:
only the `DW_OP_addr` arm writes `*addr`.  The register arms are the C
case ranges `DW_OP_reg1 ... DW_OP_reg31` and `DW_OP_breg0 ...
DW_OP_breg31`. -/
def dwarf__location : Option (List DwarfOp) → Nat → Vlocation × Nat
  | none, addr => (LOCATION_OPTIMIZED, addr)
  | some [], addr => (LOCATION_UNKNOWN, addr)
  | some (op :: _), addr =>
    if op.atom = DW_OP_addr then (LOCATION_GLOBAL, op.number)
    else if (DW_OP_reg1 ≤ op.atom ∧ op.atom ≤ DW_OP_reg31) ∨
            (DW_OP_breg0 ≤ op.atom ∧ op.atom ≤ DW_OP_breg31) then
      (LOCATION_REGISTER, addr)
    else if op.atom = DW_OP_fbreg then (LOCATION_LOCAL, addr)
    else (LOCATION_UNKNOWN, addr)

/-- The attributes of a `DW_TAG_variable` DIE that `variable__new`
reads. -/
structure VariableDie where
  name : Nat
  has_external : Bool
  has_declaration : Bool
  location : Option (List DwarfOp)
deriving DecidableEq

/-- The `struct variable` fields populated by `variable__new`. -/
structure MVariable where
  name : Nat
  external : Bool
  declaration : Bool
  location : Vlocation
  addr : Nat
deriving DecidableEq

/-- The function `variable__new (die, cu)`: location starts as
`LOCATION_UNKNOWN` and `ip.addr` as 0; `dwarf__location` is consulted
only when the DIE has no `DW_AT_declaration` and the CU was loaded with
`has_addr_info`. -/
def variable__new (die : VariableDie) (has_addr_info : Bool) : MVariable :=
  let v0 : MVariable :=
    { name := die.name
      external := die.has_external
      declaration := die.has_declaration
      location := LOCATION_UNKNOWN
      addr := 0 }
  if !v0.declaration && has_addr_info then
    let r := dwarf__location die.location v0.addr
    { v0 with location := r.1, addr := r.2 }
  else v0

/-!  Array construction: `attr_upper_bound` / `die__create_new_array`. -/

/-- A child DIE of a `DW_TAG_array_type` DIE: its tag and, when the DIE
carries a readable `DW_AT_upper_bound`, that attribute's `Dwarf_Word`
value. -/
structure ArrayChildDie where
  tag : Nat
  upper_bound : Option Nat
deriving DecidableEq

/-- The function `attr_upper_bound (die)`: `(uintmax_t) num + 1` in
uint64 arithmetic when the attribute is present and readable, 0
otherwise. -/
def attr_upper_bound : Option Nat → Nat
  | some num => (num % 2 ^ 64 + 1) % 2 ^ 64
  | none => 0

/-- The `max_dimensions` constant of `die__create_new_array`. -/
def max_dimensions : Nat := 64

/-- The child loop of `die__create_new_array`: `subrange_type` children
append `attr_upper_bound` into the `uint32_t nr_entries[]` (a mod 2^32
store); when `dimensions` reaches 64 the excess is reported and the loop
breaks; other child kinds are reported and skipped. -/
def array_nr_entries_loop (dims : List Nat) : List ArrayChildDie → List Nat
  | [] => dims
  | die :: rest =>
    if die.tag = DW_TAG_subrange_type then
      let dims2 := dims ++ [attr_upper_bound die.upper_bound % 2 ^ 32]
      if dims2.length = max_dimensions then dims2
      else array_nr_entries_loop dims2 rest
    else array_nr_entries_loop dims rest

/-- The `struct array_type` fields populated by
`die__create_new_array`. -/
structure ArrayType where
  dimensions : Nat
  nr_entries : List Nat
deriving DecidableEq

/-- The function `die__create_new_array (die, cu)` restricted to its
dimension bookkeeping: walks the child DIEs accumulating
`nr_entries`; `dimensions` is the number of entries stored. -/
def die__create_new_array (children : List ArrayChildDie) : ArrayType :=
  let entries := array_nr_entries_loop [] children
  { dimensions := entries.length, nr_entries := entries }

/-!  Lemmas about the ULEB128 loop. -/

theorem libdw_uleb128_loop_ext (f g : Nat → Nat) :
    ∀ (r acc i : Nat), (∀ j, i ≤ j → j < i + r → f j = g j) →
      libdw_uleb128_loop f acc i r = libdw_uleb128_loop g acc i r := by
  intro r
  induction r with
  | zero => intro acc i _; rfl
  | succ r ih =>
    intro acc i h
    have hb : f i = g i := h i le_rfl (by omega)
    simp only [libdw_uleb128_loop, hb]
    split
    · rfl
    · exact ih _ (i + 1) (fun j h1 h2 => h j (by omega) (by omega))

theorem libdw_uleb128_loop_no_term (f : Nat → Nat) :
    ∀ (r acc i : Nat), (∀ j, i ≤ j → j < i + r → f j % 256 &&& 0x80 ≠ 0) →
      libdw_uleb128_loop f acc i r = UINT64_MAX := by
  intro r
  induction r with
  | zero => intro acc i _; rfl
  | succ r ih =>
    intro acc i h
    have hb : f i % 256 &&& 0x80 ≠ 0 := h i le_rfl (by omega)
    simp only [libdw_uleb128_loop, if_neg hb]
    exact ih _ (i + 1) (fun j h1 h2 => h j (by omega) (by omega))

theorem get_uleb128_ext (f g : Nat → Nat) (h : ∀ i, i < 10 → f i = g i) :
    get_uleb128 f = get_uleb128 g := by
  have h0 : f 0 = g 0 := h 0 (by omega)
  simp only [get_uleb128, h0]
  split
  · rfl
  · simp only [libdw_get_uleb128]
    exact libdw_uleb128_loop_ext f g 9 _ 1 (fun j h1 h2 => h j (by omega))

theorem get_uleb128_no_term (f : Nat → Nat)
    (h : ∀ i, i < 10 → f i % 256 &&& 0x80 ≠ 0) : get_uleb128 f = UINT64_MAX := by
  have h0 : f 0 % 256 &&& 0x80 ≠ 0 := h 0 (by omega)
  simp only [get_uleb128, if_neg h0, libdw_get_uleb128]
  exact libdw_uleb128_loop_no_term f 9 _ 1 (fun j h1 h2 => h j (by omega))

/-- C9: for a block-form offset attribute, `dwarf_expr` returns the
ULEB128 operand only when the leading opcode is `DW_OP_plus_uconst` or
`DW_OP_constu`; any other leading opcode yields `UINT64_MAX`; ULEB128
decoding consumes at most ten bytes and returns `UINT64_MAX` when no
terminating byte (bit 7 clear) occurs within that limit. -/
theorem dwarf_expr_uleb128_contract :
    (∀ e : Nat → Nat, e 0 % 256 ≠ DW_OP_plus_uconst → e 0 % 256 ≠ DW_OP_constu →
      dwarf_expr e = UINT64_MAX) ∧
    (∀ e : Nat → Nat, e 0 % 256 = DW_OP_plus_uconst ∨ e 0 % 256 = DW_OP_constu →
      dwarf_expr e = get_uleb128 (fun i => e (i + 1))) ∧
    (∀ f g : Nat → Nat, (∀ i, i < 10 → f i = g i) →
      get_uleb128 f = get_uleb128 g) ∧
    (∀ f : Nat → Nat, (∀ i, i < 10 → f i % 256 &&& 0x80 ≠ 0) →
      get_uleb128 f = UINT64_MAX) := by
  refine ⟨fun e h1 h2 => ?_, fun e h => ?_, get_uleb128_ext, get_uleb128_no_term⟩
  · rw [dwarf_expr, if_neg (not_or.mpr ⟨h1, h2⟩)]
  · rw [dwarf_expr, if_pos h]

/-- C9 witness: concrete evaluations of each arm of the contract. -/
theorem dwarf_expr_uleb128_contract_witness :
    dwarf_expr (fun _ => 0xff) = UINT64_MAX ∧
    dwarf_expr (fun i => if i = 0 then 0x23 else 0x07) = 0x07 ∧
    get_uleb128 (fun i => if i < 10 then 0x80 else 0x05) = UINT64_MAX ∧
    get_uleb128 (fun i => if i < 10 then 0x03 else 0x09) = get_uleb128 (fun _ => 0x03) := by
  refine ⟨dwarf_expr_uleb128_contract.1 (fun _ => 0xff) (by decide) (by decide), ?_, ?_, ?_⟩
  · have h := dwarf_expr_uleb128_contract.2.1 (fun i => if i = 0 then 0x23 else 0x07)
      (Or.inl (by decide))
    rw [h]; rfl
  · exact dwarf_expr_uleb128_contract.2.2.2 _ (fun i _ => by
      simp only [if_pos (show i < 10 by omega)]; decide)
  · exact dwarf_expr_uleb128_contract.2.2.1 _ _ (fun i hi => by simp [if_pos hi])

/-!  Theorems about the location classifier. -/

/-- C4 counterexample: a location expression whose first opcode is
`DW_OP_reg0` (0x50) is classified `LOCATION_UNKNOWN` by
`dwarf__location`, not `LOCATION_REGISTER` as the claim states: the C
case range starts at `DW_OP_reg1`. -/
theorem dwarf_location_reg0_counterexample :
    (dwarf__location (some [⟨DW_OP_reg0, 0⟩]) 0).1 = LOCATION_UNKNOWN ∧
    (dwarf__location (some [⟨DW_OP_reg0, 0⟩]) 0).1 ≠ LOCATION_REGISTER := by
  decide

/-- C4 amended: `dwarf__location` maps a first opcode of `DW_OP_addr` to
`LOCATION_GLOBAL` with the address, a first opcode in
`DW_OP_reg1..DW_OP_reg31` or `DW_OP_breg0..DW_OP_breg31` to
`LOCATION_REGISTER` (`DW_OP_reg0` is not covered and falls to
`LOCATION_UNKNOWN`), `DW_OP_fbreg` to `LOCATION_LOCAL`, a missing
`DW_AT_location` attribute to `LOCATION_OPTIMIZED`, and any other case
to `LOCATION_UNKNOWN`. -/
theorem dwarf_location_classification :
    (∀ a, dwarf__location none a = (LOCATION_OPTIMIZED, a)) ∧
    (∀ a, dwarf__location (some []) a = (LOCATION_UNKNOWN, a)) ∧
    (∀ op ops a, op.atom = DW_OP_addr →
      dwarf__location (some (op :: ops)) a = (LOCATION_GLOBAL, op.number)) ∧
    (∀ op ops a,
      (DW_OP_reg1 ≤ op.atom ∧ op.atom ≤ DW_OP_reg31) ∨
        (DW_OP_breg0 ≤ op.atom ∧ op.atom ≤ DW_OP_breg31) →
      dwarf__location (some (op :: ops)) a = (LOCATION_REGISTER, a)) ∧
    (∀ op ops a, op.atom = DW_OP_fbreg →
      dwarf__location (some (op :: ops)) a = (LOCATION_LOCAL, a)) ∧
    (∀ op ops a, op.atom ≠ DW_OP_addr →
      ¬((DW_OP_reg1 ≤ op.atom ∧ op.atom ≤ DW_OP_reg31) ∨
        (DW_OP_breg0 ≤ op.atom ∧ op.atom ≤ DW_OP_breg31)) →
      op.atom ≠ DW_OP_fbreg →
      dwarf__location (some (op :: ops)) a = (LOCATION_UNKNOWN, a)) ∧
    (dwarf__location (some [⟨DW_OP_reg0, 0⟩]) 0).1 = LOCATION_UNKNOWN := by
  refine ⟨fun a => rfl, fun a => rfl, ?_, ?_, ?_, ?_, by decide⟩
  · intro op ops a h
    simp [dwarf__location, h]
  · intro op ops a h
    have hne : op.atom ≠ DW_OP_addr := by
      simp only [DW_OP_reg1, DW_OP_reg31, DW_OP_breg0, DW_OP_breg31] at h
      simp only [DW_OP_addr]
      omega
    simp [dwarf__location, hne, h]
  · intro op ops a h
    simp only [dwarf__location, h]
    norm_num [DW_OP_addr, DW_OP_fbreg, DW_OP_reg1, DW_OP_reg31, DW_OP_breg0,
      DW_OP_breg31]
  · intro op ops a h1 h2 h3
    simp [dwarf__location, h1, h2, h3]

/-- C4 witness: each arm of the amended classification evaluated at a
concrete opcode. -/
theorem dwarf_location_classification_witness :
    dwarf__location none 7 = (LOCATION_OPTIMIZED, 7) ∧
    dwarf__location (some [⟨DW_OP_addr, 42⟩]) 7 = (LOCATION_GLOBAL, 42) ∧
    dwarf__location (some [⟨DW_OP_breg0, 0⟩]) 7 = (LOCATION_REGISTER, 7) ∧
    dwarf__location (some [⟨DW_OP_fbreg, 0⟩]) 7 = (LOCATION_LOCAL, 7) ∧
    dwarf__location (some [⟨0xff, 0⟩]) 7 = (LOCATION_UNKNOWN, 7) :=
  ⟨dwarf_location_classification.1 7,
   dwarf_location_classification.2.2.1 ⟨DW_OP_addr, 42⟩ [] 7 rfl,
   dwarf_location_classification.2.2.2.1 ⟨DW_OP_breg0, 0⟩ [] 7 (by decide),
   dwarf_location_classification.2.2.2.2.1 ⟨DW_OP_fbreg, 0⟩ [] 7 rfl,
   dwarf_location_classification.2.2.2.2.2.1 ⟨0xff, 0⟩ [] 7 (by decide) (by decide)
     (by decide)⟩

/-- C10: `variable__new` consults `dwarf__location` only when the DIE
has no `DW_AT_declaration` and the CU has address info; in every other
case the location stays `LOCATION_UNKNOWN` and the address stays 0 — in
particular, with `get_addr_info` false a variable with no
`DW_AT_location` is `LOCATION_UNKNOWN`, never `LOCATION_OPTIMIZED`. -/
theorem variable_new_location_gate :
    (∀ die hai, die.has_declaration = true →
      (variable__new die hai).location = LOCATION_UNKNOWN ∧
        (variable__new die hai).addr = 0) ∧
    (∀ die, (variable__new die false).location = LOCATION_UNKNOWN ∧
      (variable__new die false).addr = 0) ∧
    (∀ die, die.has_declaration = false →
      (variable__new die true).location = (dwarf__location die.location 0).1 ∧
        (variable__new die true).addr = (dwarf__location die.location 0).2) ∧
    (∀ die, die.location = none →
      (variable__new die false).location ≠ LOCATION_OPTIMIZED) := by
  refine ⟨?_, ?_, ?_, ?_⟩
  · intro die hai h
    simp [variable__new, h]
  · intro die
    simp [variable__new]
  · intro die h
    simp [variable__new, h]
  · intro die _
    simp [variable__new]

/-- C10 witness: a non-declaration variable DIE with no location, built
with and without address info. -/
theorem variable_new_location_gate_witness :
    (variable__new ⟨1, false, false, none⟩ false).location = LOCATION_UNKNOWN ∧
    (variable__new ⟨1, false, false, none⟩ false).location ≠ LOCATION_OPTIMIZED ∧
    (variable__new ⟨1, false, false, none⟩ true).location = LOCATION_OPTIMIZED ∧
    (variable__new ⟨2, false, true, none⟩ true).location = LOCATION_UNKNOWN :=
  ⟨(variable_new_location_gate.2.1 ⟨1, false, false, none⟩).1,
   variable_new_location_gate.2.2.2 ⟨1, false, false, none⟩ rfl,
   by
    have h := (variable_new_location_gate.2.2.1 ⟨1, false, false, none⟩ rfl).1
    rw [h]; rfl,
   (variable_new_location_gate.1 ⟨2, false, true, none⟩ true rfl).1⟩

/-!  Theorems about array dimension handling. -/

theorem array_nr_entries_loop_eq :
    ∀ (cs : List ArrayChildDie) (dims : List Nat), dims.length < 64 →
      array_nr_entries_loop dims cs =
        dims ++ ((cs.filter (fun c => decide (c.tag = DW_TAG_subrange_type))).take
            (64 - dims.length)).map
          (fun c => attr_upper_bound c.upper_bound % 2 ^ 32) := by
  intro cs
  induction cs with
  | nil => intro dims _; simp [array_nr_entries_loop]
  | cons c rest ih =>
    intro dims hlen
    by_cases hc : c.tag = DW_TAG_subrange_type
    · have hstep : array_nr_entries_loop dims (c :: rest) =
          (if (dims ++ [attr_upper_bound c.upper_bound % 2 ^ 32]).length =
              max_dimensions then
            dims ++ [attr_upper_bound c.upper_bound % 2 ^ 32]
          else
            array_nr_entries_loop
              (dims ++ [attr_upper_bound c.upper_bound % 2 ^ 32]) rest) := by
        simp only [array_nr_entries_loop, if_pos hc]
      have hfilter :
          (c :: rest).filter (fun c => decide (c.tag = DW_TAG_subrange_type)) =
            c :: rest.filter (fun c => decide (c.tag = DW_TAG_subrange_type)) := by
        simp [List.filter_cons, hc]
      obtain ⟨k, hk⟩ : ∃ k, 64 - dims.length = k + 1 := ⟨63 - dims.length, by omega⟩
      rw [hstep, hfilter, hk]
      simp only [List.take_succ_cons, List.map_cons]
      by_cases h64 : dims.length + 1 = 64
      · rw [if_pos (by simp only [List.length_append, List.length_cons,
          List.length_nil, max_dimensions]; omega)]
        have hk0 : k = 0 := by omega
        rw [hk0]
        simp
      · rw [if_neg (by simp only [List.length_append, List.length_cons,
          List.length_nil, max_dimensions]; omega)]
        rw [ih (dims ++ [attr_upper_bound c.upper_bound % 2 ^ 32])
          (by simp only [List.length_append, List.length_cons, List.length_nil]
              omega)]
        have hkk : 64 - (dims ++ [attr_upper_bound c.upper_bound % 2 ^ 32]).length
            = k := by
          simp only [List.length_append, List.length_cons, List.length_nil]
          omega
        rw [hkk]
        simp
    · have hstep : array_nr_entries_loop dims (c :: rest) =
          array_nr_entries_loop dims rest := by
        simp only [array_nr_entries_loop, if_neg hc]
      have hfilter :
          (c :: rest).filter (fun c => decide (c.tag = DW_TAG_subrange_type)) =
            rest.filter (fun c => decide (c.tag = DW_TAG_subrange_type)) := by
        simp [List.filter_cons, hc]
      rw [hstep, hfilter, ih dims hlen]

/-- C8 counterexample: a `subrange_type` child whose `DW_AT_upper_bound`
is `2^32 - 1` gets entry count 0 — `upper_bound + 1` truncated by the
`uint32_t nr_entries[]` store — not `upper_bound + 1` as the claim
states. -/
theorem array_upper_bound_truncation_counterexample :
    (die__create_new_array [⟨DW_TAG_subrange_type, some (2 ^ 32 - 1)⟩]).nr_entries
        = [0] ∧
    (2 ^ 32 - 1) + 1 ≠ 0 := by
  constructor
  · rfl
  · norm_num

/-- C8 amended: an array's dimension count equals the number of
`subrange_type` children capped at 64 (excess truncated); each
dimension's entry count is `DW_AT_upper_bound + 1` computed in uint64
and stored in uint32 (hence reduced mod 2^32; exactly
`upper_bound + 1` whenever that sum is below 2^32), or 0 when the
attribute is absent. -/
theorem die_create_new_array_dimensions :
    (∀ children : List ArrayChildDie,
      (die__create_new_array children).dimensions =
        min ((children.filter (fun c => decide (c.tag = DW_TAG_subrange_type))).length)
          64 ∧
      (die__create_new_array children).nr_entries =
        (((children.filter (fun c => decide (c.tag = DW_TAG_subrange_type))).take
            64).map (fun c => attr_upper_bound c.upper_bound % 2 ^ 32))) ∧
    attr_upper_bound none = 0 ∧
    (∀ n : Nat, n + 1 < 2 ^ 32 → attr_upper_bound (some n) % 2 ^ 32 = n + 1) := by
  refine ⟨fun children => ?_, rfl, fun n hn => ?_⟩
  · have h := array_nr_entries_loop_eq children [] (by norm_num)
    constructor
    · simp only [die__create_new_array, h]
      simp [Nat.min_comm]
    · simp only [die__create_new_array, h]
      simp
  · have h64 : (2 : Nat) ^ 64 = 18446744073709551616 := by norm_num
    have h32 : (2 : Nat) ^ 32 = 4294967296 := by norm_num
    simp only [attr_upper_bound, h64, h32] at *
    omega

/-- C8 witness: two subrange children with upper bounds 3 and absent
give dimensions 2 and entry counts 4 and 0. -/
theorem die_create_new_array_dimensions_witness :
    (die__create_new_array
        [⟨DW_TAG_subrange_type, some 3⟩, ⟨DW_TAG_subrange_type, none⟩]).dimensions
      = 2 ∧
    (die__create_new_array
        [⟨DW_TAG_subrange_type, some 3⟩, ⟨DW_TAG_subrange_type, none⟩]).nr_entries
      = [4, 0] ∧
    attr_upper_bound (some 3) % 2 ^ 32 = 3 + 1 := by
  have h := (die_create_new_array_dimensions.1
    [⟨DW_TAG_subrange_type, some 3⟩, ⟨DW_TAG_subrange_type, none⟩])
  have h2 := die_create_new_array_dimensions.2.2 3 (by norm_num)
  refine ⟨?_, ?_, h2⟩
  · rw [h.1]; rfl
  · rw [h.2]; rfl

/-!  Bitfield recoding and the per-CU reference resolver.

The model covers the type kinds the recoder and resolver dispatch on:
`base_type`, `typedef`, `const_type`, `volatile_type`, `pointer_type`,
`enumeration_type` and `structure_type`.  A struct's members are carried
on the struct entry (`type__add_member` list); nested namespaces,
specification references and the tags/functions tables are outside this
fragment (the per-entry default path treats every non-namespace kind
uniformly, so `pointer_type` stands for all of them). -/

/-- The `struct dwarf_tag` raw metadata fields the resolver reads:
`dtype` is the raw `DW_AT_type` DIE offset (0 when absent). -/
structure DTag where
  dtype : Nat := 0
deriving DecidableEq

/-- One `DW_TAG_enumerator` child: interned name and value. -/
structure MEnumerator where
  name : Nat := 0
  value : Int := 0
deriving DecidableEq

/-- A `struct class_member`: `mtype` is the resolved `tag.type` small
id, `dtype` the raw `DW_AT_type` offset of its own `dwarf_tag`. -/
structure Member where
  name : Nat := 0
  bitfield_size : Nat := 0
  mtype : Nat := 0
  dtype : Nat := 0
deriving DecidableEq

/-- A loader tag, merging the variant fields the modelled kinds use.
`type` is the resolved small id (0 = void), `priv` the back-pointer to
raw metadata (`none` exactly for synthesized bitfield-recoded tags,
whose `obstack_zalloc` leaves `priv` NULL).  Defaults mirror the zeroed
allocation. -/
structure MTag where
  tag : Nat := 0
  type : Nat := 0
  top_level : Bool := false
  name : Nat := 0
  bit_size : Nat := 0
  size : Nat := 0
  nr_members : Nat := 0
  enumerators : List MEnumerator := []
  members : List Member := []
  shared_tags : Bool := false
  priv : Option DTag := none
deriving DecidableEq

/-- The per-CU state the resolver touches: the dense types table
(index = small id, index 0 is the reserved void slot) and the
offset-keyed types hash mapping raw DIE offset to small id (the
`hash_types` buckets of `struct dwarf_cu`; the map abstracts the
bucketed `hlist`). -/
structure DwarfCU where
  types : List MTag := []
  hash_types : List (Nat × Nat) := []
deriving DecidableEq

/-- The lookup `dwarf_cu__find_type_by_id` / `hashtags__find`: 0 finds
nothing; otherwise the hash yields the `dwarf_tag`, modelled by its
`small_id` (the tag object itself is `cu.types[small_id]`). -/
def dwarf_cu__find_type_by_id (cu : DwarfCU) (id : Nat) : Option Nat :=
  if id = 0 then none
  else (cu.hash_types.find? (fun p => p.1 == id)).map (fun p => p.2)

/-- First index of a types-table entry satisfying `p`. -/
def types_table_find (p : MTag → Bool) : List MTag → Option Nat
  | [] => none
  | t :: ts => if p t then some 0 else (types_table_find p ts).map (· + 1)

/-- Predicate of the base-type table search: equal tag, interned name
and bit width. -/
def base_type_matches (name bit_size : Nat) (t : MTag) : Bool :=
  t.tag == DW_TAG_base_type && t.name == name && t.bit_size == bit_size

/-- Predicate of the enumeration table search: equal tag, interned name
and declared size in bits. -/
def enumeration_matches (name bit_size : Nat) (t : MTag) : Bool :=
  t.tag == DW_TAG_enumeration_type && t.name == name && t.size == bit_size

/-- Modelled from the spec: `cu__find_base_type_by_sname_and_size` lives
in dwarves.c, not under src/; per §3.2 the types table returns an
existing base type with equal interned name and equal bit width when one
exists. -/
def cu__find_base_type_by_sname_and_size (cu : DwarfCU) (name bit_size : Nat) :
    Option Nat :=
  types_table_find (base_type_matches name bit_size) cu.types

/-- Modelled from the spec: `cu__find_enumeration_by_sname_and_size`
lives in dwarves.c; same lookup discipline for enumerations, keyed on
name and declared size in bits. -/
def cu__find_enumeration_by_sname_and_size (cu : DwarfCU) (name bit_size : Nat) :
    Option Nat :=
  types_table_find (enumeration_matches name bit_size) cu.types

/-- Modelled from the spec: `cu__add_tag` lives in dwarves.c; each
recoding that allocates inserts into the types table and returns the new
`small_id` (all recoded tags are type kinds). -/
def cu__add_tag (cu : DwarfCU) (t : MTag) : DwarfCU × Nat :=
  ({ cu with types := cu.types ++ [t] }, cu.types.length)

def EINVAL : Int := 22

/-- The function `tag__recode_dwarf_bitfield (self, cu, bit_size)`.
The result is the new type's small id, or a negative error; `none`
models the crash of the unchecked `dtype->tag` dereference when a hash
lookup fails.  The fuel bounds the typedef/qualifier chain recursion.
Faithful details: the recursive result is narrowed through the
`uint16_t id` before the `id == self->type` comparison; the
`DW_TAG_const_type` / `DW_TAG_volatile_type` arm always stamps the new
wrapper with `DW_TAG_volatile_type`; the wrapper reuses the original's
name only in the typedef arm. -/
def tag__recode_dwarf_bitfield : Nat → DwarfCU → MTag → Nat → Option (DwarfCU × Int)
  | 0, _, _, _ => none
  | fuel + 1, cu, self, bit_size =>
    if self.tag = DW_TAG_typedef then
      match self.priv with
      | none => none
      | some dself =>
        match dwarf_cu__find_type_by_id cu dself.dtype with
        | none => none
        | some small =>
          match cu.types[small]? with
          | none => none
          | some wrapped =>
            match tag__recode_dwarf_bitfield fuel cu wrapped bit_size with
            | none => none
            | some (cu1, r) =>
              let id : Nat := (r % 65536).toNat
              if id = self.type then some (cu1, (id : Int))
              else
                let p := cu__add_tag cu1
                  { tag := DW_TAG_typedef, type := id, name := self.name }
                some (p.1, (p.2 : Int))
    else if self.tag = DW_TAG_const_type ∨ self.tag = DW_TAG_volatile_type then
      match self.priv with
      | none => none
      | some dself =>
        match dwarf_cu__find_type_by_id cu dself.dtype with
        | none => none
        | some small =>
          match cu.types[small]? with
          | none => none
          | some wrapped =>
            match tag__recode_dwarf_bitfield fuel cu wrapped bit_size with
            | none => none
            | some (cu1, r) =>
              let id : Nat := (r % 65536).toNat
              if id = self.type then some (cu1, (id : Int))
              else
                let p := cu__add_tag cu1 { tag := DW_TAG_volatile_type, type := id }
                some (p.1, (p.2 : Int))
    else if self.tag = DW_TAG_base_type then
      match cu__find_base_type_by_sname_and_size cu self.name bit_size with
      | some id => some (cu, (id : Int))
      | none =>
        let p := cu__add_tag cu
          { tag := DW_TAG_base_type, top_level := true, name := self.name,
            bit_size := bit_size }
        some (p.1, (p.2 : Int))
    else if self.tag = DW_TAG_enumeration_type then
      match cu__find_enumeration_by_sname_and_size cu self.name bit_size with
      | some id => some (cu, (id : Int))
      | none =>
        let p := cu__add_tag cu
          { tag := DW_TAG_enumeration_type, top_level := true,
            nr_members := self.nr_members, enumerators := self.enumerators,
            shared_tags := true, name := self.name, size := bit_size }
        some (p.1, (p.2 : Int))
    else some (cu, -EINVAL)

/-- The function `class_member__dwarf_recode_bitfield (self, cu)`: looks
the member's raw type up in the types hash (the C dereferences the
result unchecked), recodes it at the member's bitfield width, and on
success stores the recoded id into the member's `tag.type`. -/
def class_member__dwarf_recode_bitfield (fuel : Nat) (cu : DwarfCU) (m : Member) :
    Option (DwarfCU × Member × Int) :=
  match dwarf_cu__find_type_by_id cu m.dtype with
  | none => none
  | some small =>
    match cu.types[small]? with
    | none => none
    | some t =>
      match tag__recode_dwarf_bitfield fuel cu t m.bitfield_size with
      | none => none
      | some (cu1, r) =>
        if r < 0 then some (cu1, m, r)
        else some (cu1, { m with mtype := r.toNat }, 0)

/-- One member iteration of `namespace__recode_dwarf_types`: a member
with nonzero bitfield size is recoded (a recode error makes the
resolver pass return -1, modelled `none`); otherwise the member's raw
type is resolved through the types hash (`dpos->type == 0` and a failed
lookup both leave the member untouched). -/
def member_recode_step (fuel : Nat) (cu : DwarfCU) (m : Member) :
    Option (DwarfCU × Member) :=
  if m.bitfield_size ≠ 0 then
    match class_member__dwarf_recode_bitfield fuel cu m with
    | none => none
    | some (cu1, m1, err) => if err < 0 then none else some (cu1, m1)
  else
    if m.dtype = 0 then some (cu, m)
    else
      match dwarf_cu__find_type_by_id cu m.dtype with
      | none => some (cu, m)
      | some small => some (cu, { m with mtype := small })

/-- The member loop of `namespace__recode_dwarf_types` over a struct's
member list. -/
def members_recode (fuel : Nat) : DwarfCU → List Member →
    Option (DwarfCU × List Member)
  | cu, [] => some (cu, [])
  | cu, m :: ms =>
    match member_recode_step fuel cu m with
    | none => none
    | some (cu1, m1) =>
      match members_recode fuel cu1 ms with
      | none => none
      | some (cu2, ms2) => some (cu2, m1 :: ms2)

/-- The `tag__has_namespace` dispatch restricted to the modelled kinds:
structs and enumerations carry a namespace child list. -/
def tag__has_namespace (t : MTag) : Bool :=
  t.tag == DW_TAG_structure_type || t.tag == DW_TAG_enumeration_type

/-- The function `tag__recode_dwarf_type (self, cu)` on one table entry:
a null `priv` (an already recoded bitfield tag) is skipped; namespace
kinds run `namespace__recode_dwarf_types` (for an enumeration the
children are enumerators whose `dpos->type` is 0, so nothing happens);
every other modelled kind takes the default arm: raw type 0 resolves to
void, a hash hit stores the small id, a miss is reported and leaves the
field. -/
def tag__recode_dwarf_type (fuel : Nat) (cu : DwarfCU) (self : MTag) :
    Option (DwarfCU × MTag) :=
  match self.priv with
  | none => some (cu, self)
  | some dtag =>
    if tag__has_namespace self then
      if self.tag = DW_TAG_structure_type then
        match members_recode fuel cu self.members with
        | none => none
        | some (cu1, ms) => some (cu1, { self with members := ms })
      else some (cu, self)
    else
      if dtag.dtype = 0 then some (cu, { self with type := 0 })
      else
        match dwarf_cu__find_type_by_id cu dtag.dtype with
        | none => some (cu, self)
        | some small => some (cu, { self with type := small })

/-- The loop of `cu__recode_dwarf_types_table`: `for (; i <
pt->nr_entries; ++i)` rereads the entry count, so entries appended by
bitfield recoding during the pass are themselves visited (and skipped,
their `priv` being null).  The fuel bounds the iteration count; each
processed entry is written back in place. -/
def recode_table_loop : Nat → DwarfCU → Nat → Option DwarfCU
  | 0, _, _ => none
  | fuel + 1, cu, i =>
    if h : i < cu.types.length then
      match tag__recode_dwarf_type (fuel + 1) cu cu.types[i] with
      | none => none
      | some (cu1, t1) => recode_table_loop fuel { cu1 with types := cu1.types.set i t1 } (i + 1)
    else some cu

/-- The function `cu__recode_dwarf_types`, restricted to its types-table
pass (which starts at index 1, entry 0 being the void slot). -/
def cu__recode_dwarf_types (fuel : Nat) (cu : DwarfCU) : Option DwarfCU :=
  recode_table_loop fuel cu 1

/-!  Table search lemmas. -/

theorem types_table_find_append_some (p : MTag → Bool) :
    ∀ (l l2 : List MTag) (i : Nat), types_table_find p l = some i →
      types_table_find p (l ++ l2) = some i := by
  intro l
  induction l with
  | nil => intro l2 i h; simp [types_table_find] at h
  | cons a as ih =>
    intro l2 i h
    simp only [types_table_find, List.cons_append, List.append_eq] at h ⊢
    by_cases hp : p a
    · simpa [if_pos hp] using h
    · simp only [if_neg hp] at h ⊢
      obtain ⟨j, hj, hji⟩ := Option.map_eq_some'.mp h
      rw [ih l2 j hj]
      simp [hji]

theorem types_table_find_append_singleton (p : MTag → Bool) :
    ∀ (l : List MTag) (t : MTag), types_table_find p l = none → p t = true →
      types_table_find p (l ++ [t]) = some l.length := by
  intro l
  induction l with
  | nil => intro t h hp; simp [types_table_find, hp]
  | cons a as ih =>
    intro t h hp
    simp only [types_table_find, List.cons_append, List.append_eq] at h ⊢
    by_cases hpa : p a
    · simp [if_pos hpa] at h
    · simp only [if_neg hpa] at h ⊢
      rw [ih t (Option.map_eq_none'.mp h) hp]
      simp

/-!  Theorems about the bitfield recoder: wrapper kinds (C2), base type
sharing (C3), enumeration sharing (C7). -/

/-- C2 counterexample CU: a 32-bit base type `int` (interned name 1,
small id 1, raw offset 11) and a `const int` tag (small id 2, raw offset
12, resolved type 1). -/
def cuConstEx : DwarfCU :=
  { types := [ {},
      { tag := DW_TAG_base_type, name := 1, bit_size := 32, priv := some {} },
      { tag := DW_TAG_const_type, type := 1, priv := some { dtype := 11 } } ],
    hash_types := [(11, 1), (12, 2)] }

/-- The `const int` tag of `cuConstEx`. -/
def constTagEx : MTag := { tag := DW_TAG_const_type, type := 1, priv := some { dtype := 11 } }

/-- C2 counterexample: recoding the `const int` tag at bitfield width 3
allocates the 3-bit base type and then a wrapper whose kind is
`DW_TAG_volatile_type`, not the original's `DW_TAG_const_type`: the
`const`/`volatile` arm of `tag__recode_dwarf_bitfield` hardcodes
`recoded->tag = DW_TAG_volatile_type`. -/
theorem recode_const_bitfield_counterexample :
    (tag__recode_dwarf_bitfield 8 cuConstEx constTagEx 3).map
        (fun p => (p.2, (p.1.types[4]?).map (fun t => t.tag))) =
      some (4, some DW_TAG_volatile_type) ∧
    DW_TAG_volatile_type ≠ DW_TAG_const_type := by
  constructor
  · rfl
  · decide

/-- C2 amended: on a typedef, const, or volatile wrapper the recoder
recursively recodes the wrapped type; if the recoded target (narrowed
through the `uint16_t id`) equals the original's resolved type it
returns that index; otherwise it allocates a new wrapper pointing at the
recoded target — of kind typedef reusing the original's name when the
original is a typedef, but always of kind `DW_TAG_volatile_type` (name
zero) when the original is const or volatile. -/
theorem recode_wrapper_kinds
    (fuel : Nat) (cu : DwarfCU) (self : MTag) (w : Nat) (dself : DTag)
    (small : Nat) (wrapped : MTag) (cu1 : DwarfCU) (r : Int)
    (hpriv : self.priv = some dself)
    (hfind : dwarf_cu__find_type_by_id cu dself.dtype = some small)
    (hget : cu.types[small]? = some wrapped)
    (hrec : tag__recode_dwarf_bitfield fuel cu wrapped w = some (cu1, r)) :
    (self.tag = DW_TAG_typedef →
      ((r % 65536).toNat = self.type →
        tag__recode_dwarf_bitfield (fuel + 1) cu self w =
          some (cu1, ((r % 65536).toNat : Int))) ∧
      ((r % 65536).toNat ≠ self.type →
        tag__recode_dwarf_bitfield (fuel + 1) cu self w =
          some ({ cu1 with types := cu1.types ++
              [{ tag := DW_TAG_typedef, type := (r % 65536).toNat,
                 name := self.name }] },
            (cu1.types.length : Int)))) ∧
    (self.tag = DW_TAG_const_type ∨ self.tag = DW_TAG_volatile_type →
      ((r % 65536).toNat = self.type →
        tag__recode_dwarf_bitfield (fuel + 1) cu self w =
          some (cu1, ((r % 65536).toNat : Int))) ∧
      ((r % 65536).toNat ≠ self.type →
        tag__recode_dwarf_bitfield (fuel + 1) cu self w =
          some ({ cu1 with types := cu1.types ++
              [{ tag := DW_TAG_volatile_type, type := (r % 65536).toNat }] },
            (cu1.types.length : Int)))) := by
  constructor
  · intro htag
    refine ⟨fun hid => ?_, fun hid => ?_⟩ <;>
      simp [tag__recode_dwarf_bitfield, htag, hpriv, hfind, hget, hrec, hid,
        cu__add_tag]
  · intro htag
    have hne : ¬ self.tag = DW_TAG_typedef := by
      rcases htag with h | h <;>
        simp [h, DW_TAG_typedef, DW_TAG_const_type, DW_TAG_volatile_type]
    refine ⟨fun hid => ?_, fun hid => ?_⟩ <;>
      simp only [tag__recode_dwarf_bitfield, if_neg hne, if_pos htag, hpriv,
        hfind, hget, hrec] <;>
      simp [hid, cu__add_tag]

/-- C2 witness: the two allocation arms at concrete inputs — a typedef
wrapper keeps kind typedef and name, a const wrapper comes back as
volatile. -/
theorem recode_wrapper_kinds_witness :
    tag__recode_dwarf_bitfield 2 cuConstEx constTagEx 3 =
      some ({ cuConstEx with types := cuConstEx.types ++
          [{ tag := DW_TAG_base_type, top_level := true, name := 1, bit_size := 3 },
           { tag := DW_TAG_volatile_type, type := 3 }] }, (4 : Int)) ∧
    tag__recode_dwarf_bitfield 2 cuConstEx
        { tag := DW_TAG_typedef, type := 1, name := 9, priv := some { dtype := 11 } }
        3 =
      some ({ cuConstEx with types := cuConstEx.types ++
          [{ tag := DW_TAG_base_type, top_level := true, name := 1, bit_size := 3 },
           { tag := DW_TAG_typedef, type := 3, name := 9 }] }, (4 : Int)) := by
  constructor
  · have h := (recode_wrapper_kinds 1 cuConstEx constTagEx 3 { dtype := 11 } 1
      { tag := DW_TAG_base_type, name := 1, bit_size := 32, priv := some {} }
      { cuConstEx with types := cuConstEx.types ++
          [{ tag := DW_TAG_base_type, top_level := true, name := 1, bit_size := 3 }] }
      3 rfl rfl rfl (by decide)).2 (Or.inl rfl) |>.2 (by decide)
    simpa using h
  · have h := (recode_wrapper_kinds 1 cuConstEx
      { tag := DW_TAG_typedef, type := 1, name := 9, priv := some { dtype := 11 } }
      3 { dtype := 11 } 1
      { tag := DW_TAG_base_type, name := 1, bit_size := 32, priv := some {} }
      { cuConstEx with types := cuConstEx.types ++
          [{ tag := DW_TAG_base_type, top_level := true, name := 1, bit_size := 3 }] }
      3 rfl rfl rfl (by decide)).1 rfl |>.2 (by decide)
    simpa using h

/-- Helper: the found arm of the base-type recode. -/
theorem recode_base_found (fuel : Nat) (cu : DwarfCU) (self : MTag) (w : Nat)
    (hself : self.tag = DW_TAG_base_type) (id : Nat)
    (hid : cu__find_base_type_by_sname_and_size cu self.name w = some id) :
    tag__recode_dwarf_bitfield (fuel + 1) cu self w = some (cu, (id : Int)) := by
  have hne1 : ¬ self.tag = DW_TAG_typedef := by
    simp [hself, DW_TAG_typedef, DW_TAG_base_type]
  have hne2 : ¬ (self.tag = DW_TAG_const_type ∨ self.tag = DW_TAG_volatile_type) := by
    simp [hself, DW_TAG_const_type, DW_TAG_volatile_type, DW_TAG_base_type]
  simp only [tag__recode_dwarf_bitfield, if_neg hne1, if_neg hne2, if_pos hself,
    hid]

/-- Helper: the allocation arm of the base-type recode. -/
theorem recode_base_alloc (fuel : Nat) (cu : DwarfCU) (self : MTag) (w : Nat)
    (hself : self.tag = DW_TAG_base_type)
    (hnone : cu__find_base_type_by_sname_and_size cu self.name w = none) :
    tag__recode_dwarf_bitfield (fuel + 1) cu self w =
      some ({ cu with types := cu.types ++
          [{ tag := DW_TAG_base_type, top_level := true, name := self.name,
             bit_size := w }] }, (cu.types.length : Int)) := by
  have hne1 : ¬ self.tag = DW_TAG_typedef := by
    simp [hself, DW_TAG_typedef, DW_TAG_base_type]
  have hne2 : ¬ (self.tag = DW_TAG_const_type ∨ self.tag = DW_TAG_volatile_type) := by
    simp [hself, DW_TAG_const_type, DW_TAG_volatile_type, DW_TAG_base_type]
  simp only [tag__recode_dwarf_bitfield, if_neg hne1, if_neg hne2, if_pos hself,
    hnone, cu__add_tag]

/-- Helper: a second base-type recode at the same name and width returns
the same index without growing the table. -/
theorem recode_base_again (fuel : Nat) (cu : DwarfCU) (self : MTag) (w : Nat)
    (hself : self.tag = DW_TAG_base_type) (cu1 : DwarfCU) (r : Int)
    (h : tag__recode_dwarf_bitfield (fuel + 1) cu self w = some (cu1, r)) :
    ∀ fuel2, tag__recode_dwarf_bitfield (fuel2 + 1) cu1 self w = some (cu1, r) := by
  intro fuel2
  rcases hcase : cu__find_base_type_by_sname_and_size cu self.name w with _ | id
  · rw [recode_base_alloc fuel cu self w hself hcase] at h
    simp only [Option.some.injEq, Prod.mk.injEq] at h
    obtain ⟨hcu, hr⟩ := h
    subst hcu
    subst hr
    have hfind1 : cu__find_base_type_by_sname_and_size
        ({ cu with types := cu.types ++
          [{ tag := DW_TAG_base_type, top_level := true, name := self.name,
             bit_size := w }] } : DwarfCU) self.name w =
        some cu.types.length := by
      have hstep := types_table_find_append_singleton
        (base_type_matches self.name w) cu.types
        { tag := DW_TAG_base_type, top_level := true, name := self.name,
          bit_size := w } hcase (by simp [base_type_matches])
      simpa [cu__find_base_type_by_sname_and_size] using hstep
    exact recode_base_found fuel2 _ self w hself cu.types.length hfind1
  · rw [recode_base_found fuel cu self w hself id hcase] at h
    simp only [Option.some.injEq, Prod.mk.injEq] at h
    obtain ⟨hcu, hr⟩ := h
    subst hcu
    subst hr
    exact recode_base_found fuel2 cu self w hself id hcase

/-- Helper: the base-type recode always succeeds, appending zero or one
entry and returning a nonnegative id. -/
theorem recode_base_shape (fuel : Nat) (cu : DwarfCU) (self : MTag) (w : Nat)
    (hself : self.tag = DW_TAG_base_type) :
    ∃ (rest : List MTag) (id : Nat), tag__recode_dwarf_bitfield (fuel + 1) cu self w =
      some ({ cu with types := cu.types ++ rest }, (id : Int)) := by
  rcases hcase : cu__find_base_type_by_sname_and_size cu self.name w with _ | id
  · refine ⟨[{ tag := DW_TAG_base_type, top_level := true, name := self.name, bit_size := w }],
      cu.types.length, ?_⟩
    exact recode_base_alloc fuel cu self w hself hcase
  · refine ⟨[], id, ?_⟩
    simpa using recode_base_found fuel cu self w hself id hcase

/-- C3: recoding a bitfield member whose underlying type is a base type
first searches the types table for a base type with equal interned name
and bit width equal to the bitfield size and returns its index when
found; otherwise it allocates a new top-level base type with that name
and width, appends it to the types table, and returns its index; a
second recode of the same base type at the same width therefore returns
the same index without growing the table, so two members with equal
bitfield size over the same underlying base type resolve to the same
small id. -/
theorem recode_base_type_sharing
    (fuel : Nat) (cu : DwarfCU) (self : MTag) (w : Nat)
    (hself : self.tag = DW_TAG_base_type) :
    (∀ id, cu__find_base_type_by_sname_and_size cu self.name w = some id →
      tag__recode_dwarf_bitfield (fuel + 1) cu self w = some (cu, (id : Int))) ∧
    (cu__find_base_type_by_sname_and_size cu self.name w = none →
      tag__recode_dwarf_bitfield (fuel + 1) cu self w =
        some ({ cu with types := cu.types ++
            [{ tag := DW_TAG_base_type, top_level := true, name := self.name,
               bit_size := w }] }, (cu.types.length : Int))) ∧
    (∀ cu1 r, tag__recode_dwarf_bitfield (fuel + 1) cu self w = some (cu1, r) →
      ∀ fuel2, tag__recode_dwarf_bitfield (fuel2 + 1) cu1 self w = some (cu1, r)) ∧
    (∀ m1 m2 small cu1 m1r e1,
      dwarf_cu__find_type_by_id cu m1.dtype = some small →
      cu.types[small]? = some self →
      m2.dtype = m1.dtype → m2.bitfield_size = m1.bitfield_size →
      m1.bitfield_size = w →
      class_member__dwarf_recode_bitfield (fuel + 1) cu m1 = some (cu1, m1r, e1) →
      class_member__dwarf_recode_bitfield (fuel + 1) cu1 m2 =
        some (cu1, { m2 with mtype := m1r.mtype }, 0) ∧ e1 = 0) := by
  refine ⟨fun id hid => recode_base_found fuel cu self w hself id hid,
    recode_base_alloc fuel cu self w hself,
    recode_base_again fuel cu self w hself,
    ?_⟩
  intro m1 m2 small cu1 m1r e1 hfind hget hdt hbf hw hm1
  obtain ⟨rest, id, hrec⟩ := recode_base_shape fuel cu self w hself
  simp only [class_member__dwarf_recode_bitfield, hfind, hget, hw, hrec] at hm1
  rw [if_neg (by omega : ¬ ((id : Int) < 0))] at hm1
  simp only [Option.some.injEq, Prod.mk.injEq] at hm1
  obtain ⟨hcu1, hm1r, he1⟩ := hm1
  subst hcu1
  subst he1
  refine ⟨?_, rfl⟩
  have hm1rm : m1r.mtype = id := by
    rw [← hm1r]
    simp
  have hfind2 : dwarf_cu__find_type_by_id
      { cu with types := cu.types ++ rest } m2.dtype = some small := by
    rw [hdt]
    exact hfind
  have hsm : small < cu.types.length := by
    by_contra hcon
    push_neg at hcon
    rw [List.getElem?_eq_none hcon] at hget
    exact Option.noConfusion hget
  have hget2 : ({ cu with types := cu.types ++ rest } : DwarfCU).types[small]? =
      some self := by
    show (cu.types ++ rest)[small]? = some self
    rw [List.getElem?_append, if_pos hsm]
    exact hget
  have hrec2 := recode_base_again fuel cu self w hself _ _ hrec fuel
  simp only [class_member__dwarf_recode_bitfield, hfind2, hget2, hbf, hw, hrec2]
  rw [if_neg (by omega : ¬ ((id : Int) < 0))]
  simp [hm1rm]

/-- A 32-bit base type `int` (interned name 1, raw offset 11). -/
def intTagEx : MTag := { tag := DW_TAG_base_type, name := 1, bit_size := 32, priv := some { dtype := 0 } }

/-- CU with just the void slot and `intTagEx` at small id 1. -/
def cuBaseEx : DwarfCU := { types := [{}, intTagEx], hash_types := [(11, 1)] }

/-- `cuBaseEx` after one bitfield recode allocated the 3-bit `int`. -/
def cuBaseExRec : DwarfCU :=
  { types := [{}, intTagEx, { tag := DW_TAG_base_type, top_level := true, name := 1, bit_size := 3 }],
    hash_types := [(11, 1)] }

/-- First bitfield member of width 3 over `intTagEx`. -/
def mEx1 : Member := { name := 4, bitfield_size := 3, dtype := 11 }

/-- Second bitfield member of width 3 over `intTagEx`. -/
def mEx2 : Member := { name := 5, bitfield_size := 3, dtype := 11 }

/-- `mEx1` with its recoded type index stored. -/
def mEx1rec : Member := { name := 4, bitfield_size := 3, mtype := 2, dtype := 11 }

/-- C3 witness: recoding the first member allocates the 3-bit `int` at
small id 2; recoding a second member of the same width over the same
base type resolves to the same small id 2 without growing the table. -/
theorem recode_base_type_sharing_witness :
    class_member__dwarf_recode_bitfield 8 cuBaseEx mEx1 =
      some (cuBaseExRec, mEx1rec, 0) ∧
    class_member__dwarf_recode_bitfield 8 cuBaseExRec mEx2 =
      some (cuBaseExRec, { mEx2 with mtype := 2 }, 0) := by
  refine ⟨rfl, ?_⟩
  have h := (recode_base_type_sharing 7 cuBaseEx intTagEx 3 rfl).2.2.2
    mEx1 mEx2 1 cuBaseExRec mEx1rec 0 rfl rfl rfl rfl rfl rfl
  simpa using h.1

/-- C7: recoding an enumeration at a new bitfield width (no matching
entry in the table) appends a new enumeration that shares the original's
enumerator list (the C aliases the list head and never copies the
enumerators), is marked `shared_tags = true`, and reports the same
enumerator count and identical enumerator values as the original. -/
theorem recode_enumeration_shares_enumerators
    (fuel : Nat) (cu : DwarfCU) (self : MTag) (w : Nat)
    (hself : self.tag = DW_TAG_enumeration_type)
    (hnone : cu__find_enumeration_by_sname_and_size cu self.name w = none) :
    ∃ e : MTag, tag__recode_dwarf_bitfield (fuel + 1) cu self w =
        some ({ cu with types := cu.types ++ [e] }, (cu.types.length : Int)) ∧
      e.shared_tags = true ∧ e.enumerators = self.enumerators ∧
      e.nr_members = self.nr_members ∧
      e.enumerators.length = self.enumerators.length ∧
      (∀ i : Nat, e.enumerators[i]? = self.enumerators[i]?) ∧
      e.tag = DW_TAG_enumeration_type ∧ e.size = w := by
  have hne1 : ¬ self.tag = DW_TAG_typedef := by
    simp [hself, DW_TAG_typedef, DW_TAG_enumeration_type]
  have hne2 : ¬ (self.tag = DW_TAG_const_type ∨ self.tag = DW_TAG_volatile_type) := by
    simp [hself, DW_TAG_const_type, DW_TAG_volatile_type, DW_TAG_enumeration_type]
  have hne3 : ¬ self.tag = DW_TAG_base_type := by
    simp [hself, DW_TAG_base_type, DW_TAG_enumeration_type]
  refine ⟨{ tag := DW_TAG_enumeration_type, top_level := true, nr_members := self.nr_members, enumerators := self.enumerators, shared_tags := true, name := self.name, size := w },
    ?_, rfl, rfl, rfl, rfl, fun i => rfl, rfl, rfl⟩
  simp only [tag__recode_dwarf_bitfield, if_neg hne1, if_neg hne2, if_neg hne3,
    if_pos hself, hnone, cu__add_tag]

/-- An enumeration with two enumerators (values 0 and 1). -/
def enumTagEx : MTag :=
  { tag := DW_TAG_enumeration_type, name := 5, size := 32, nr_members := 2,
    enumerators := [{ name := 7, value := 0 }, { name := 8, value := 1 }],
    priv := some { dtype := 0 } }

/-- C7 witness: recoding `enumTagEx` at width 3 inside `cuConstEx`. -/
theorem recode_enumeration_shares_enumerators_witness :
    ∃ e : MTag, tag__recode_dwarf_bitfield 8 cuConstEx enumTagEx 3 =
        some ({ cuConstEx with types := cuConstEx.types ++ [e] }, (3 : Int)) ∧
      e.shared_tags = true ∧ e.enumerators = enumTagEx.enumerators ∧
      e.nr_members = enumTagEx.nr_members ∧
      e.enumerators.length = enumTagEx.enumerators.length ∧
      (∀ i : Nat, e.enumerators[i]? = enumTagEx.enumerators[i]?) ∧
      e.tag = DW_TAG_enumeration_type ∧ e.size = 3 :=
  recode_enumeration_shares_enumerators 7 cuConstEx enumTagEx 3 rfl rfl

/-- C6 counterexample CU: `int` (small id 1, raw 11), `typedef T int`
(small id 2, raw 12), and a struct (small id 3, raw 13) with one
bitfield member of width 3 whose raw type is the typedef. -/
def cuTypedefEx : DwarfCU :=
  { types := [ {},
      { tag := DW_TAG_base_type, name := 1, bit_size := 32, priv := some {} },
      { tag := DW_TAG_typedef, name := 2, priv := some { dtype := 11 } },
      { tag := DW_TAG_structure_type, name := 3, priv := some {}, members := [{ name := 4, bitfield_size := 3, dtype := 12 }] } ],
    hash_types := [(11, 1), (12, 2), (13, 3)] }

/-- C6 counterexample: the first resolver pass over `cuTypedefEx` leaves
6 types-table entries (the 3-bit `int` and a new typedef wrapper were
appended); a second pass over the already-resolved CU appends another
typedef wrapper (the typedef arm of the recoder has no
lookup-before-allocate), giving 7 entries — the table contents are not
identical, so the pass is not idempotent. -/
theorem resolver_not_idempotent_counterexample :
    (cu__recode_dwarf_types 32 cuTypedefEx).map (fun c => c.types.length) =
      some 6 ∧
    ((cu__recode_dwarf_types 32 cuTypedefEx).bind
        (fun c => cu__recode_dwarf_types 32 c)).map (fun c => c.types.length) =
      some 7 ∧
    (cu__recode_dwarf_types 32 cuTypedefEx).bind
        (fun c => cu__recode_dwarf_types 32 c) ≠
      cu__recode_dwarf_types 32 cuTypedefEx := by
  refine ⟨rfl, rfl, ?_⟩
  decide

/-!  Top-level DIE dispatch (`__die__process_tag` / `die__process_unit`). -/

/-- The kinds with a case in the `__die__process_tag` switch. -/
def supported_unit_tags : List Nat :=
  [DW_TAG_array_type, DW_TAG_base_type, DW_TAG_const_type,
   DW_TAG_imported_declaration, DW_TAG_imported_module, DW_TAG_pointer_type,
   DW_TAG_reference_type, DW_TAG_volatile_type, DW_TAG_ptr_to_member_type,
   DW_TAG_enumeration_type, DW_TAG_namespace, DW_TAG_class_type,
   DW_TAG_interface_type, DW_TAG_structure_type, DW_TAG_subprogram,
   DW_TAG_subroutine_type, DW_TAG_typedef, DW_TAG_union_type, DW_TAG_variable]

/-- The dispatch of `__die__process_tag`, by DIE kind: a supported kind
constructs its tag (modelled by its kind; arena failures are out of
scope here); the default arm reports through `__cu__tag_not_handled`
(one message per occurrence, no per-kind memo on this path) and returns
NULL. -/
def die__process_tag (die_tag : Nat) : Option Nat :=
  if supported_unit_tags.contains die_tag then some die_tag else none

/-- The sibling loop of `die__process_unit` over the CU's top-level
DIEs: a NULL from `die__process_tag` makes the function return -ENOMEM
(`none`), abandoning the remaining DIEs. -/
def die__process_unit : List Nat → Option (List Nat)
  | [] => some []
  | d :: ds =>
    match die__process_tag d with
    | none => none
    | some t => (die__process_unit ds).map (fun ts => t :: ts)

/-- C1 counterexample: a top-level DIE of unsupported kind
(`DW_TAG_template_type_parameter`) makes `die__process_unit` fail, so
the following `DW_TAG_variable` DIE is not loaded — the CU is abandoned,
not continued; the variable alone would have loaded. -/
theorem process_unit_unsupported_counterexample :
    die__process_unit [DW_TAG_template_type_parameter, DW_TAG_variable] = none ∧
    die__process_unit [DW_TAG_variable] = some [DW_TAG_variable] := ⟨rfl, rfl⟩

/-- C1 amended: a top-level DIE whose kind is outside the supported set
is reported (once per occurrence) and `__die__process_tag` returns NULL;
`die__process_unit` treats that NULL as -ENOMEM and abandons the CU, so
a unit loads fully exactly when every top-level kind is supported, and
any unsupported kind anywhere in the unit makes the whole unit fail. -/
theorem process_unit_abandons_on_unsupported :
    (∀ dies : List Nat, (∀ d ∈ dies, supported_unit_tags.contains d = true) →
      die__process_unit dies = some dies) ∧
    (∀ dies : List Nat, (∃ d ∈ dies, supported_unit_tags.contains d = false) →
      die__process_unit dies = none) := by
  constructor
  · intro dies h
    induction dies with
    | nil => rfl
    | cons d ds ih =>
      have hd := h d (by simp)
      simp only [die__process_unit, die__process_tag, hd, if_pos]
      rw [ih (fun x hx => h x (by simp [hx]))]
      rfl
  · intro dies hex
    induction dies with
    | nil => obtain ⟨d, hd, _⟩ := hex; cases hd
    | cons a as ih =>
      obtain ⟨d, hd, hcontain⟩ := hex
      rcases List.mem_cons.mp hd with rfl | hmem
      · simp only [die__process_unit, die__process_tag, hcontain]
        rfl
      · simp only [die__process_unit]
        rcases hpt : die__process_tag a with _ | t
        · rfl
        · rw [ih ⟨d, hmem, hcontain⟩]
          rfl

/-- C1 witness: an all-supported unit loads fully; one unsupported DIE
at the end fails the whole unit. -/
theorem process_unit_abandons_on_unsupported_witness :
    die__process_unit [DW_TAG_variable, DW_TAG_base_type] =
      some [DW_TAG_variable, DW_TAG_base_type] ∧
    die__process_unit [DW_TAG_variable, DW_TAG_template_type_parameter] = none :=
  ⟨process_unit_abandons_on_unsupported.1 _ (by decide),
   process_unit_abandons_on_unsupported.2 _
     ⟨DW_TAG_template_type_parameter, by decide, by decide⟩⟩

/-!  Per-CU driver epilogue (`cus__load_module`). -/

/-- The stealer results (`enum load_steal_kind`). -/
inductive LoadStealKind where
  | LSK__STOP_LOADING
  | LSK__STOLEN
  | LSK__KEEPIT
deriving DecidableEq

/-- Observable resource events of one iteration tail of
`cus__load_module`. -/
structure CuEpilogue where
  raw_arena_freed : Bool
  domain_arena_freed : Bool
  cu_added : Bool
  abort_file : Bool
deriving DecidableEq

/-- The per-CU tail of `cus__load_module` after `die__process` and size
caching: `LSK__STOP_LOADING` returns `DWARF_CB_ABORT` at once,
`LSK__STOLEN` continues to the next CU at once — on both paths
`obstack_free(&dcu.obstack, NULL)` (the raw-load arena) is never
reached; only the fallthrough (`LSK__KEEPIT` or no stealer) frees the
raw arena when `extra_dbg_info` is off and then adds the CU.  The
domain arena `cu->obstack` is freed on no path. -/
def cus__load_module_epilogue (steal : Option LoadStealKind)
    (extra_dbg_info : Bool) : CuEpilogue :=
  match steal with
  | some LoadStealKind.LSK__STOP_LOADING =>
    { raw_arena_freed := false, domain_arena_freed := false, cu_added := false,
      abort_file := true }
  | some LoadStealKind.LSK__STOLEN =>
    { raw_arena_freed := false, domain_arena_freed := false, cu_added := false,
      abort_file := false }
  | some LoadStealKind.LSK__KEEPIT =>
    { raw_arena_freed := !extra_dbg_info, domain_arena_freed := false,
      cu_added := true, abort_file := false }
  | none =>
    { raw_arena_freed := !extra_dbg_info, domain_arena_freed := false,
      cu_added := true, abort_file := false }

/-- C5 counterexample: with `extra_dbg_info` off, the raw-load arena is
not freed on the `LSK__STOLEN` path, nor on `LSK__STOP_LOADING` — the
claim says it is always freed there. -/
theorem stolen_raw_arena_not_freed_counterexample :
    (cus__load_module_epilogue (some LoadStealKind.LSK__STOLEN) false).raw_arena_freed
        = false ∧
    (cus__load_module_epilogue (some LoadStealKind.LSK__STOP_LOADING)
        false).raw_arena_freed = false := by
  decide

/-- C5 amended: the raw-load arena is released only on the kept path
(`LSK__KEEPIT` or no stealer) and only when `extra_dbg_info` is off; on
the `LSK__STOLEN` and `LSK__STOP_LOADING` paths it is never freed
(`obstack_free(&dcu.obstack, NULL)` is unreachable there); the domain
arena persists on every path. -/
theorem load_module_arena_discipline :
    (∀ extra,
      (cus__load_module_epilogue (some LoadStealKind.LSK__KEEPIT)
          extra).raw_arena_freed = !extra ∧
      (cus__load_module_epilogue none extra).raw_arena_freed = !extra) ∧
    (∀ extra,
      (cus__load_module_epilogue (some LoadStealKind.LSK__STOLEN)
          extra).raw_arena_freed = false ∧
      (cus__load_module_epilogue (some LoadStealKind.LSK__STOP_LOADING)
          extra).raw_arena_freed = false) ∧
    (∀ steal extra,
      (cus__load_module_epilogue steal extra).domain_arena_freed = false) ∧
    (∀ extra,
      (cus__load_module_epilogue (some LoadStealKind.LSK__STOP_LOADING)
          extra).abort_file = true ∧
      (cus__load_module_epilogue (some LoadStealKind.LSK__STOLEN)
          extra).cu_added = false) := by
  refine ⟨fun extra => ⟨rfl, rfl⟩, fun extra => ⟨rfl, rfl⟩, fun steal extra => ?_,
    fun extra => ⟨rfl, rfl⟩⟩
  rcases steal with _ | k
  · rfl
  · cases k <;> rfl

/-!  Infrastructure for the resolver idempotence analysis.

The resolver mutates a tag's resolved `type` field and a struct's
member list, and appends synthesized (null-`priv`) tags; everything
else about an entry — its `tag_skel` — is preserved. -/

/-- The fields of a tag the resolver never writes. -/
def tag_skel (t : MTag) : MTag := { t with type := 0, members := [] }

/-- How a resolver step changes the CU: the hash is untouched, the
table only grows, surviving entries keep their skeleton, and every
entry beyond the original length has null `priv`. -/
def CUStep (cuA cuB : DwarfCU) : Prop :=
  cuB.hash_types = cuA.hash_types ∧
  cuA.types.length ≤ cuB.types.length ∧
  (∀ i, i < cuA.types.length →
    (cuB.types[i]?).map tag_skel = (cuA.types[i]?).map tag_skel) ∧
  (∀ j t, cuA.types.length ≤ j → cuB.types[j]? = some t → t.priv = none)

theorem CUStep_refl (cu : DwarfCU) : CUStep cu cu := by
  refine ⟨rfl, le_rfl, fun i _ => rfl, fun j t hj ht => ?_⟩
  rw [List.getElem?_eq_none hj] at ht
  exact Option.noConfusion ht

theorem CUStep_trans (cuA cuB cuC : DwarfCU) (h1 : CUStep cuA cuB)
    (h2 : CUStep cuB cuC) : CUStep cuA cuC := by
  obtain ⟨hh1, hl1, hs1, hp1⟩ := h1
  obtain ⟨hh2, hl2, hs2, hp2⟩ := h2
  refine ⟨hh2.trans hh1, hl1.trans hl2, fun i hi => ?_, fun j t hj ht => ?_⟩
  · exact (hs2 i (lt_of_lt_of_le hi hl1)).trans (hs1 i hi)
  · by_cases hjB : cuB.types.length ≤ j
    · exact hp2 j t hjB ht
    · push_neg at hjB
      have hskel := hs2 j hjB
      rw [ht] at hskel
      rcases hB : cuB.types[j]? with _ | tB
      · rw [hB] at hskel; exact Option.noConfusion hskel
      · rw [hB] at hskel
        have hpriv : tB.priv = none := hp1 j tB hj hB
        have hts : tag_skel t = tag_skel tB := by simpa using hskel
        have hpp : t.priv = tB.priv := by
          have := congrArg MTag.priv hts
          simpa [tag_skel] using this
        rw [hpp, hpriv]

/-- An appends-only step: the table is extended on the right by
null-`priv` tags and nothing else changes. -/
def CUAppends (cuA cuB : DwarfCU) : Prop :=
  cuB.hash_types = cuA.hash_types ∧
  ∃ rest, cuB.types = cuA.types ++ rest ∧ ∀ t ∈ rest, t.priv = none

theorem CUAppends_refl (cu : DwarfCU) : CUAppends cu cu :=
  ⟨rfl, [], by simp, by simp⟩

theorem CUAppends_getElem (cuA cuB : DwarfCU) (h : CUAppends cuA cuB) (i : Nat)
    (hi : i < cuA.types.length) : cuB.types[i]? = cuA.types[i]? := by
  obtain ⟨_, rest, hrest, _⟩ := h
  rw [hrest, List.getElem?_append, if_pos hi]

theorem CUAppends_step (cuA cuB : DwarfCU) (h : CUAppends cuA cuB) :
    CUStep cuA cuB := by
  obtain ⟨hh, rest, hrest, hpriv⟩ := h
  refine ⟨hh, by rw [hrest]; simp, fun i hi => ?_, fun j t hj ht => ?_⟩
  · rw [CUAppends_getElem cuA cuB ⟨hh, rest, hrest, hpriv⟩ i hi]
  · rw [hrest, List.getElem?_append, if_neg (by omega)] at ht
    obtain ⟨_, hteq⟩ := List.getElem?_eq_some.mp ht
    exact hteq ▸ hpriv _ (List.getElem_mem _)

theorem CUAppends_trans (cuA cuB cuC : DwarfCU) (h1 : CUAppends cuA cuB)
    (h2 : CUAppends cuB cuC) : CUAppends cuA cuC := by
  obtain ⟨hh1, r1, hr1, hp1⟩ := h1
  obtain ⟨hh2, r2, hr2, hp2⟩ := h2
  refine ⟨hh2.trans hh1, r1 ++ r2, ?_, ?_⟩
  · rw [hr2, hr1, List.append_assoc]
  · intro t ht
    rcases List.mem_append.mp ht with h | h
    · exact hp1 t h
    · exact hp2 t h

/-- In-place update of entry `i` by a tag with the same skeleton. -/
theorem CUStep_set (cu : DwarfCU) (i : Nat) (t t2 : MTag)
    (hget : cu.types[i]? = some t) (hskel : tag_skel t2 = tag_skel t) :
    CUStep cu { cu with types := cu.types.set i t2 } := by
  obtain ⟨hi, hti⟩ := List.getElem?_eq_some.mp hget
  refine ⟨rfl, by simp, fun j hj => ?_, fun j s hj hs => ?_⟩
  · by_cases hij : i = j
    · subst hij
      rw [List.getElem?_set_self (by simpa using hi), hget]
      simp [hskel]
    · rw [List.getElem?_set_ne hij]
  · rw [List.getElem?_set_ne (by omega)] at hs
    rw [List.getElem?_eq_none hj] at hs
    exact Option.noConfusion hs

/-- Finding through the hash only depends on the hash. -/
theorem find_type_hash (cuA cuB : DwarfCU) (h : cuB.hash_types = cuA.hash_types)
    (x : Nat) : dwarf_cu__find_type_by_id cuB x = dwarf_cu__find_type_by_id cuA x := by
  simp [dwarf_cu__find_type_by_id, h]

theorem base_type_matches_skel (n w : Nat) (t : MTag) :
    base_type_matches n w (tag_skel t) = base_type_matches n w t := rfl

theorem enumeration_matches_skel (n w : Nat) (t : MTag) :
    enumeration_matches n w (tag_skel t) = enumeration_matches n w t := rfl

/-- A successful first-index search survives skeleton-preserving growth
of the table. -/
theorem types_table_find_skel_mono (p : MTag → Bool)
    (hp : ∀ t, p (tag_skel t) = p t) :
    ∀ (lA lB : List MTag), lA.length ≤ lB.length →
      (∀ i, i < lA.length → (lB[i]?).map tag_skel = (lA[i]?).map tag_skel) →
      ∀ i, types_table_find p lA = some i → types_table_find p lB = some i := by
  intro lA
  induction lA with
  | nil => intro lB _ _ i h; simp [types_table_find] at h
  | cons a as ih =>
    intro lB hlen hskel i h
    rcases lB with _ | ⟨b, bs⟩
    · simp at hlen
    · have h0 := hskel 0 (by simp)
      have hba : tag_skel b = tag_skel a := by simpa using h0
      have hpba : p b = p a := by rw [← hp b, ← hp a, hba]
      simp only [types_table_find] at h ⊢
      by_cases hpa : p a
      · rw [if_pos (by rw [hpba]; exact hpa)]
        simpa [if_pos hpa] using h
      · rw [if_neg (by rw [hpba]; exact hpa)]
        rw [if_neg hpa] at h
        obtain ⟨j, hj, hji⟩ := Option.map_eq_some'.mp h
        rw [ih bs (by simpa using hlen)
          (fun k hk => by simpa using hskel (k + 1) (by simpa using hk)) j hj]
        simp [hji]

theorem find_base_mono (cuA cuB : DwarfCU) (h : CUStep cuA cuB) (n w id : Nat)
    (hfind : cu__find_base_type_by_sname_and_size cuA n w = some id) :
    cu__find_base_type_by_sname_and_size cuB n w = some id :=
  types_table_find_skel_mono (base_type_matches n w)
    (base_type_matches_skel n w) cuA.types cuB.types h.2.1 h.2.2.1 id hfind

theorem find_enum_mono (cuA cuB : DwarfCU) (h : CUStep cuA cuB) (n w id : Nat)
    (hfind : cu__find_enumeration_by_sname_and_size cuA n w = some id) :
    cu__find_enumeration_by_sname_and_size cuB n w = some id :=
  types_table_find_skel_mono (enumeration_matches n w)
    (enumeration_matches_skel n w) cuA.types cuB.types h.2.1 h.2.2.1 id hfind

/-- An entry survives a step with its skeleton intact. -/
theorem getElem_skel_mono (cuA cuB : DwarfCU) (h : CUStep cuA cuB) (i : Nat)
    (t2 : MTag) (hget : cuA.types[i]? = some t2) :
    ∃ t3, cuB.types[i]? = some t3 ∧ tag_skel t3 = tag_skel t2 := by
  obtain ⟨hi, _⟩ := List.getElem?_eq_some.mp hget
  have hskel := h.2.2.1 i hi
  rw [hget] at hskel
  rcases hb : cuB.types[i]? with _ | t3
  · rw [hb] at hskel; exact Option.noConfusion hskel
  · rw [hb] at hskel
    exact ⟨t3, rfl, by simpa using hskel⟩

/-- Postcondition of the resolver on one member: a recoded bitfield
member's index is what the (memoized) base/enumeration lookup yields for
its target's name and width; a plain member's index is its hash
resolution. -/
def MemberDone (cu : DwarfCU) (m : Member) : Prop :=
  if m.bitfield_size ≠ 0 then
    ∃ small t2, dwarf_cu__find_type_by_id cu m.dtype = some small ∧
      cu.types[small]? = some t2 ∧
      ((t2.tag = DW_TAG_base_type ∧
        cu__find_base_type_by_sname_and_size cu t2.name m.bitfield_size =
          some m.mtype) ∨
       (t2.tag = DW_TAG_enumeration_type ∧
        cu__find_enumeration_by_sname_and_size cu t2.name m.bitfield_size =
          some m.mtype))
  else
    ∀ small, dwarf_cu__find_type_by_id cu m.dtype = some small → m.mtype = small

/-- Postcondition of the resolver on one table entry. -/
def EntryDone (cu : DwarfCU) (t : MTag) : Prop :=
  match t.priv with
  | none => True
  | some d =>
    if tag__has_namespace t then
      t.tag = DW_TAG_structure_type → ∀ m ∈ t.members, MemberDone cu m
    else
      (d.dtype = 0 → t.type = 0) ∧
      (∀ small, dwarf_cu__find_type_by_id cu d.dtype = some small → t.type = small)

/-- A fully resolved CU: every entry from index 1 on satisfies its
postcondition. -/
def CUDone (cu : DwarfCU) : Prop :=
  ∀ i t, 1 ≤ i → cu.types[i]? = some t → EntryDone cu t

/-- Check that a bitfield member's raw type resolves directly to a base
or enumeration type (no typedef/const/volatile wrapper). -/
def member_target_ok (cu : DwarfCU) (m : Member) : Bool :=
  match dwarf_cu__find_type_by_id cu m.dtype with
  | none => false
  | some small =>
    match cu.types[small]? with
    | none => false
    | some t2 => t2.tag == DW_TAG_base_type || t2.tag == DW_TAG_enumeration_type

/-- The hypothesis the counterexample forces: no bitfield member's type
chain passes through a wrapper. -/
def NoWrapperBitfields (cu : DwarfCU) : Prop :=
  ∀ t ∈ cu.types, ∀ m ∈ t.members, m.bitfield_size ≠ 0 →
    member_target_ok cu m = true

theorem MemberDone_mono (cuA cuB : DwarfCU) (m : Member) (h : CUStep cuA cuB)
    (hd : MemberDone cuA m) : MemberDone cuB m := by
  by_cases hbf : m.bitfield_size ≠ 0
  · rw [MemberDone, if_pos hbf] at hd ⊢
    obtain ⟨small, t2, hfind, hget, hdisj⟩ := hd
    obtain ⟨t3, hget3, hskel⟩ := getElem_skel_mono cuA cuB h small t2 hget
    have htag : t3.tag = t2.tag := by
      have := congrArg MTag.tag hskel
      simpa [tag_skel] using this
    have hname : t3.name = t2.name := by
      have := congrArg MTag.name hskel
      simpa [tag_skel] using this
    refine ⟨small, t3, ?_, hget3, ?_⟩
    · rw [find_type_hash cuA cuB h.1]; exact hfind
    · rcases hdisj with ⟨ht, hfindb⟩ | ⟨ht, hfinde⟩
      · exact Or.inl ⟨htag.trans ht,
          hname ▸ find_base_mono cuA cuB h t2.name m.bitfield_size m.mtype hfindb⟩
      · exact Or.inr ⟨htag.trans ht,
          hname ▸ find_enum_mono cuA cuB h t2.name m.bitfield_size m.mtype hfinde⟩
  · rw [MemberDone, if_neg hbf] at hd ⊢
    intro small hfind
    exact hd small (by rw [← find_type_hash cuA cuB h.1]; exact hfind)

theorem EntryDone_mono (cuA cuB : DwarfCU) (t : MTag) (h : CUStep cuA cuB)
    (hd : EntryDone cuA t) : EntryDone cuB t := by
  rcases hpriv : t.priv with _ | d
  · simp only [EntryDone, hpriv]
  · simp only [EntryDone, hpriv] at hd ⊢
    by_cases hns : tag__has_namespace t = true
    · rw [if_pos hns] at hd ⊢
      intro hstruct m hm
      exact MemberDone_mono cuA cuB m h (hd hstruct m hm)
    · rw [if_neg hns] at hd ⊢
      obtain ⟨h0, hsmall⟩ := hd
      refine ⟨h0, fun small hfind => ?_⟩
      exact hsmall small (by rw [← find_type_hash cuA cuB h.1]; exact hfind)

theorem member_target_ok_mono (cuA cuB : DwarfCU) (m : Member) (h : CUStep cuA cuB)
    (hok : member_target_ok cuA m = true) : member_target_ok cuB m = true := by
  rcases hfind : dwarf_cu__find_type_by_id cuA m.dtype with _ | small
  · simp only [member_target_ok, hfind] at hok
    exact absurd hok (by simp)
  · simp only [member_target_ok, hfind] at hok
    rcases hget : cuA.types[small]? with _ | t2
    · simp only [hget] at hok
      exact absurd hok (by simp)
    · simp only [hget] at hok
      obtain ⟨t3, hget3, hskel⟩ := getElem_skel_mono cuA cuB h small t2 hget
      have htag : t3.tag = t2.tag := by
        have := congrArg MTag.tag hskel
        simpa [tag_skel] using this
      simp only [member_target_ok, find_type_hash cuA cuB h.1, hfind, hget3, htag]
      exact hok

/-- Helper: the found arm of the enumeration recode. -/
theorem recode_enum_found (fuel : Nat) (cu : DwarfCU) (self : MTag) (w : Nat)
    (hself : self.tag = DW_TAG_enumeration_type) (id : Nat)
    (hid : cu__find_enumeration_by_sname_and_size cu self.name w = some id) :
    tag__recode_dwarf_bitfield (fuel + 1) cu self w = some (cu, (id : Int)) := by
  have hne1 : ¬ self.tag = DW_TAG_typedef := by
    simp [hself, DW_TAG_typedef, DW_TAG_enumeration_type]
  have hne2 : ¬ (self.tag = DW_TAG_const_type ∨ self.tag = DW_TAG_volatile_type) := by
    simp [hself, DW_TAG_const_type, DW_TAG_volatile_type, DW_TAG_enumeration_type]
  have hne3 : ¬ self.tag = DW_TAG_base_type := by
    simp [hself, DW_TAG_base_type, DW_TAG_enumeration_type]
  simp only [tag__recode_dwarf_bitfield, if_neg hne1, if_neg hne2, if_neg hne3,
    if_pos hself, hid]

/-- Helper: the allocation arm of the enumeration recode. -/
theorem recode_enum_alloc (fuel : Nat) (cu : DwarfCU) (self : MTag) (w : Nat)
    (hself : self.tag = DW_TAG_enumeration_type)
    (hnone : cu__find_enumeration_by_sname_and_size cu self.name w = none) :
    tag__recode_dwarf_bitfield (fuel + 1) cu self w =
      some ({ cu with types := cu.types ++
          [{ tag := DW_TAG_enumeration_type, top_level := true, nr_members := self.nr_members, enumerators := self.enumerators, shared_tags := true, name := self.name, size := w }] },
        (cu.types.length : Int)) := by
  have hne1 : ¬ self.tag = DW_TAG_typedef := by
    simp [hself, DW_TAG_typedef, DW_TAG_enumeration_type]
  have hne2 : ¬ (self.tag = DW_TAG_const_type ∨ self.tag = DW_TAG_volatile_type) := by
    simp [hself, DW_TAG_const_type, DW_TAG_volatile_type, DW_TAG_enumeration_type]
  have hne3 : ¬ self.tag = DW_TAG_base_type := by
    simp [hself, DW_TAG_base_type, DW_TAG_enumeration_type]
  simp only [tag__recode_dwarf_bitfield, if_neg hne1, if_neg hne2, if_neg hne3,
    if_pos hself, hnone, cu__add_tag]

/-- Helper: the base-type recode appends null-`priv` tags only and its
result id is found by the same search afterwards (memoization). -/
theorem recode_base_run (fuel : Nat) (cu : DwarfCU) (self : MTag) (w : Nat)
    (hself : self.tag = DW_TAG_base_type) :
    ∃ (rest : List MTag) (id : Nat),
      tag__recode_dwarf_bitfield (fuel + 1) cu self w =
        some ({ cu with types := cu.types ++ rest }, (id : Int)) ∧
      (∀ t ∈ rest, t.priv = none) ∧
      cu__find_base_type_by_sname_and_size
        ({ cu with types := cu.types ++ rest } : DwarfCU) self.name w = some id := by
  rcases hcase : cu__find_base_type_by_sname_and_size cu self.name w with _ | id
  · refine ⟨[{ tag := DW_TAG_base_type, top_level := true, name := self.name, bit_size := w }],
      cu.types.length, recode_base_alloc fuel cu self w hself hcase, by simp, ?_⟩
    have hstep := types_table_find_append_singleton
      (base_type_matches self.name w) cu.types
      { tag := DW_TAG_base_type, top_level := true, name := self.name, bit_size := w }
      hcase (by simp [base_type_matches])
    simpa [cu__find_base_type_by_sname_and_size] using hstep
  · refine ⟨[], id, ?_, by simp, by simpa using hcase⟩
    simpa using recode_base_found fuel cu self w hself id hcase

/-- Helper: same shape for the enumeration recode. -/
theorem recode_enum_run (fuel : Nat) (cu : DwarfCU) (self : MTag) (w : Nat)
    (hself : self.tag = DW_TAG_enumeration_type) :
    ∃ (rest : List MTag) (id : Nat),
      tag__recode_dwarf_bitfield (fuel + 1) cu self w =
        some ({ cu with types := cu.types ++ rest }, (id : Int)) ∧
      (∀ t ∈ rest, t.priv = none) ∧
      cu__find_enumeration_by_sname_and_size
        ({ cu with types := cu.types ++ rest } : DwarfCU) self.name w = some id := by
  rcases hcase : cu__find_enumeration_by_sname_and_size cu self.name w with _ | id
  · refine ⟨[{ tag := DW_TAG_enumeration_type, top_level := true, nr_members := self.nr_members, enumerators := self.enumerators, shared_tags := true, name := self.name, size := w }],
      cu.types.length, recode_enum_alloc fuel cu self w hself hcase, by simp, ?_⟩
    have hstep := types_table_find_append_singleton
      (enumeration_matches self.name w) cu.types
      { tag := DW_TAG_enumeration_type, top_level := true, nr_members := self.nr_members, enumerators := self.enumerators, shared_tags := true, name := self.name, size := w }
      hcase (by simp [enumeration_matches])
    simpa [cu__find_enumeration_by_sname_and_size] using hstep
  · refine ⟨[], id, ?_, by simp, by simpa using hcase⟩
    simpa using recode_enum_found fuel cu self w hself id hcase

theorem set_getElem_self {α : Type} (l : List α) :
    ∀ (i : Nat) (a : α), l[i]? = some a → l.set i a = l := by
  induction l with
  | nil => intro i a h; simp at h
  | cons x xs ih =>
    intro i a h
    cases i with
    | zero =>
      simp only [List.getElem?_cons_zero, Option.some.injEq] at h
      simp [h]
    | succ j =>
      simp only [List.getElem?_cons_succ] at h
      simp [List.set, ih j a h]

/-- A member satisfying its postcondition is a fixed point of the
member resolution step. -/
theorem member_recode_step_done (fuel : Nat) (cu : DwarfCU) (m : Member)
    (hd : MemberDone cu m) : member_recode_step (fuel + 1) cu m = some (cu, m) := by
  by_cases hbf : m.bitfield_size ≠ 0
  · rw [MemberDone, if_pos hbf] at hd
    obtain ⟨small, t2, hfind, hget, hdisj⟩ := hd
    have hrec : tag__recode_dwarf_bitfield (fuel + 1) cu t2 m.bitfield_size =
        some (cu, (m.mtype : Int)) := by
      rcases hdisj with ⟨ht, hfindb⟩ | ⟨ht, hfinde⟩
      · exact recode_base_found fuel cu t2 m.bitfield_size ht m.mtype hfindb
      · exact recode_enum_found fuel cu t2 m.bitfield_size ht m.mtype hfinde
    simp only [member_recode_step, if_pos hbf, class_member__dwarf_recode_bitfield,
      hfind, hget, hrec]
    rw [if_neg (by omega : ¬ ((m.mtype : Int) < 0))]
    rfl
  · rw [MemberDone, if_neg hbf] at hd
    simp only [member_recode_step, if_neg hbf]
    by_cases hdt : m.dtype = 0
    · rw [if_pos hdt]
    · rw [if_neg hdt]
      rcases hfind : dwarf_cu__find_type_by_id cu m.dtype with _ | small
      · simp only [hfind]
      · simp only [hfind]
        rw [← hd small hfind]

/-- A member list satisfying its postconditions is a fixed point of the
member loop. -/
theorem members_recode_done (fuel : Nat) (cu : DwarfCU) :
    ∀ ms : List Member, (∀ m ∈ ms, MemberDone cu m) →
      members_recode (fuel + 1) cu ms = some (cu, ms) := by
  intro ms
  induction ms with
  | nil => intro _; rfl
  | cons m ms ih =>
    intro h
    have h1 := member_recode_step_done fuel cu m (h m (by simp))
    simp only [members_recode, h1, ih (fun x hx => h x (by simp [hx]))]

/-- An entry satisfying its postcondition is a fixed point of
`tag__recode_dwarf_type`. -/
theorem recode_entry_done (fuel : Nat) (cu : DwarfCU) (t : MTag)
    (hd : EntryDone cu t) : tag__recode_dwarf_type (fuel + 1) cu t = some (cu, t) := by
  rcases hpriv : t.priv with _ | d
  · simp [tag__recode_dwarf_type, hpriv]
  · simp only [EntryDone, hpriv] at hd
    simp only [tag__recode_dwarf_type, hpriv]
    by_cases hns : tag__has_namespace t = true
    · rw [if_pos hns] at hd ⊢
      by_cases hstruct : t.tag = DW_TAG_structure_type
      · rw [if_pos hstruct]
        simp only [members_recode_done fuel cu t.members (hd hstruct)]
        rw [← hpriv]
      · rw [if_neg hstruct]
    · rw [if_neg hns] at hd ⊢
      obtain ⟨h0, hsmall⟩ := hd
      by_cases hdt : d.dtype = 0
      · rw [if_pos hdt, ← h0 hdt, ← hpriv]
      · rw [if_neg hdt]
        rcases hfind : dwarf_cu__find_type_by_id cu d.dtype with _ | small
        · simp only [hfind]
        · simp only [hfind]
          rw [← hsmall small hfind, ← hpriv]

/-- A fully resolved CU is a fixed point of the table pass given enough
fuel. -/
theorem recode_loop_done (cu : DwarfCU) (hdone : CUDone cu) :
    ∀ (k i : Nat), cu.types.length ≤ i + k → 1 ≤ i →
      recode_table_loop (k + 1) cu i = some cu := by
  intro k
  induction k with
  | zero =>
    intro i hle _
    rw [recode_table_loop, dif_neg (by omega)]
  | succ k ih =>
    intro i hle h1
    by_cases hlt : i < cu.types.length
    · have hget : cu.types[i]? = some cu.types[i] := List.getElem?_eq_getElem hlt
      have hstep := recode_entry_done (k + 1) cu cu.types[i]
        (hdone i cu.types[i] h1 hget)
      have hset : ({ cu with types := cu.types.set i cu.types[i] } : DwarfCU) = cu := by
        rw [set_getElem_self cu.types i cu.types[i] hget]
      rw [recode_table_loop, dif_pos hlt]
      simp only [hstep, hset]
      exact ih (i + 1) (by omega) (by omega)
    · rw [recode_table_loop, dif_neg hlt]

/-- One run-1 member step on a wrapper-free member: it succeeds, only
appends null-`priv` tags, and leaves the member satisfying its
postcondition. -/
theorem member_recode_step_establishes (fuel : Nat) (cuK : DwarfCU) (m : Member)
    (hok : m.bitfield_size ≠ 0 → member_target_ok cuK m = true) :
    ∃ cuK2 m2, member_recode_step (fuel + 1) cuK m = some (cuK2, m2) ∧
      CUAppends cuK cuK2 ∧ MemberDone cuK2 m2 := by
  by_cases hbf : m.bitfield_size ≠ 0
  · have hokk := hok hbf
    rcases hfind : dwarf_cu__find_type_by_id cuK m.dtype with _ | small
    · simp only [member_target_ok, hfind] at hokk
      exact absurd hokk (by simp)
    · simp only [member_target_ok, hfind] at hokk
      rcases hget : cuK.types[small]? with _ | t2
      · simp only [hget] at hokk
        exact absurd hokk (by simp)
      · simp only [hget] at hokk
        simp only [Bool.or_eq_true, beq_iff_eq] at hokk
        have hsm : small < cuK.types.length := (List.getElem?_eq_some.mp hget).1
        rcases hokk with ht | ht
        · obtain ⟨rest, id, hrec, hprest, hfound⟩ :=
            recode_base_run fuel cuK t2 m.bitfield_size ht
          refine ⟨{ cuK with types := cuK.types ++ rest }, { m with mtype := id },
            ?_, ⟨rfl, rest, rfl, hprest⟩, ?_⟩
          · simp only [member_recode_step, if_pos hbf,
              class_member__dwarf_recode_bitfield, hfind, hget, hrec]
            rw [if_neg (by omega : ¬ ((id : Int) < 0))]
            rfl
          · rw [MemberDone, if_pos hbf]
            refine ⟨small, t2, hfind, ?_, Or.inl ⟨ht, hfound⟩⟩
            show (cuK.types ++ rest)[small]? = some t2
            rw [List.getElem?_append, if_pos hsm]
            exact hget
        · obtain ⟨rest, id, hrec, hprest, hfound⟩ :=
            recode_enum_run fuel cuK t2 m.bitfield_size ht
          refine ⟨{ cuK with types := cuK.types ++ rest }, { m with mtype := id },
            ?_, ⟨rfl, rest, rfl, hprest⟩, ?_⟩
          · simp only [member_recode_step, if_pos hbf,
              class_member__dwarf_recode_bitfield, hfind, hget, hrec]
            rw [if_neg (by omega : ¬ ((id : Int) < 0))]
            rfl
          · rw [MemberDone, if_pos hbf]
            refine ⟨small, t2, hfind, ?_, Or.inr ⟨ht, hfound⟩⟩
            show (cuK.types ++ rest)[small]? = some t2
            rw [List.getElem?_append, if_pos hsm]
            exact hget
  · by_cases hdt : m.dtype = 0
    · refine ⟨cuK, m, ?_, CUAppends_refl cuK, ?_⟩
      · simp only [member_recode_step, if_neg hbf, if_pos hdt]
      · rw [MemberDone, if_neg hbf]
        intro small hfind
        rw [hdt] at hfind
        simp [dwarf_cu__find_type_by_id] at hfind
    · rcases hfind : dwarf_cu__find_type_by_id cuK m.dtype with _ | small
      · refine ⟨cuK, m, ?_, CUAppends_refl cuK, ?_⟩
        · simp only [member_recode_step, if_neg hbf, if_neg hdt, hfind]
        · rw [MemberDone, if_neg hbf]
          intro small2 hfind2
          rw [hfind] at hfind2
          exact Option.noConfusion hfind2
      · refine ⟨cuK, { m with mtype := small }, ?_, CUAppends_refl cuK, ?_⟩
        · simp only [member_recode_step, if_neg hbf, if_neg hdt, hfind]
        · rw [MemberDone, if_neg hbf]
          intro small2 hfind2
          rw [hfind] at hfind2
          exact (Option.some.inj hfind2).symm ▸ rfl

/-- The run-1 member loop on wrapper-free members. -/
theorem members_recode_establishes (fuel : Nat) :
    ∀ (ms : List Member) (cuK : DwarfCU),
      (∀ m ∈ ms, m.bitfield_size ≠ 0 → member_target_ok cuK m = true) →
      ∃ cuK2 ms2, members_recode (fuel + 1) cuK ms = some (cuK2, ms2) ∧
        CUAppends cuK cuK2 ∧ (∀ m ∈ ms2, MemberDone cuK2 m) := by
  intro ms
  induction ms with
  | nil => intro cuK _; exact ⟨cuK, [], rfl, CUAppends_refl cuK, by simp⟩
  | cons m ms ih =>
    intro cuK h
    obtain ⟨cu1, m1, hstep, happ1, hdone1⟩ :=
      member_recode_step_establishes fuel cuK m (h m (by simp))
    obtain ⟨cu2, ms2, hloop, happ2, hdone2⟩ := ih cu1
      (fun x hx hbf => member_target_ok_mono cuK cu1 x (CUAppends_step _ _ happ1)
        (h x (by simp [hx]) hbf))
    refine ⟨cu2, m1 :: ms2, ?_, CUAppends_trans _ _ _ happ1 happ2, ?_⟩
    · simp only [members_recode, hstep, hloop]
    · intro x hx
      rcases List.mem_cons.mp hx with rfl | hx2
      · exact MemberDone_mono cu1 cu2 x (CUAppends_step _ _ happ2) hdone1
      · exact hdone2 x hx2

/-- One run-1 entry step: it succeeds, only appends null-`priv` tags,
keeps the entry's skeleton, and leaves the entry satisfying its
postcondition. -/
theorem tag__has_namespace_set_members (t : MTag) (ms : List Member) :
    tag__has_namespace { t with members := ms } = tag__has_namespace t := rfl

theorem tag__has_namespace_set_type (t : MTag) (x : Nat) :
    tag__has_namespace { t with type := x } = tag__has_namespace t := rfl

theorem recode_entry_establishes (fuel : Nat) (cuK : DwarfCU) (t : MTag)
    (hok : ∀ m ∈ t.members, m.bitfield_size ≠ 0 → member_target_ok cuK m = true) :
    ∃ cuK2 t2, tag__recode_dwarf_type (fuel + 1) cuK t = some (cuK2, t2) ∧
      CUAppends cuK cuK2 ∧ tag_skel t2 = tag_skel t ∧ EntryDone cuK2 t2 := by
  rcases hpriv : t.priv with _ | d
  · refine ⟨cuK, t, by simp [tag__recode_dwarf_type, hpriv], CUAppends_refl cuK,
      rfl, ?_⟩
    simp [EntryDone, hpriv]
  · simp only [tag__recode_dwarf_type, hpriv]
    by_cases hns : tag__has_namespace t = true
    · rw [if_pos hns]
      by_cases hstruct : t.tag = DW_TAG_structure_type
      · rw [if_pos hstruct]
        obtain ⟨cu2, ms2, hloop, happ, hdone⟩ :=
          members_recode_establishes fuel t.members cuK hok
        refine ⟨cu2, { t with members := ms2 }, ?_, happ, rfl, ?_⟩
        · simp only [hloop]
          rw [← hpriv]
        · simp only [EntryDone, tag__has_namespace_set_members]
          simp only [hpriv]
          rw [if_pos hns]
          intro _ m hm
          exact hdone m hm
      · rw [if_neg hstruct]
        refine ⟨cuK, t, rfl, CUAppends_refl cuK, rfl, ?_⟩
        simp only [EntryDone, hpriv]
        rw [if_pos hns]
        intro hstruct2
        exact absurd hstruct2 hstruct
    · rw [if_neg hns]
      by_cases hdt : d.dtype = 0
      · rw [if_pos hdt]
        refine ⟨cuK, { t with type := 0 }, by rw [← hpriv], CUAppends_refl cuK,
          rfl, ?_⟩
        simp only [EntryDone, tag__has_namespace_set_type]
        simp only [hpriv]
        rw [if_neg hns]
        refine ⟨fun _ => trivial, fun small hfind => ?_⟩
        rw [hdt] at hfind
        simp [dwarf_cu__find_type_by_id] at hfind
      · rw [if_neg hdt]
        rcases hfind : dwarf_cu__find_type_by_id cuK d.dtype with _ | small
        · simp only [hfind]
          refine ⟨cuK, t, rfl, CUAppends_refl cuK, rfl, ?_⟩
          simp only [EntryDone, hpriv]
          rw [if_neg hns]
          refine ⟨fun h0 => absurd h0 hdt, fun small2 hfind2 => ?_⟩
          rw [hfind] at hfind2
          exact Option.noConfusion hfind2
        · simp only [hfind]
          refine ⟨cuK, { t with type := small }, by rw [← hpriv],
            CUAppends_refl cuK, rfl, ?_⟩
          simp only [EntryDone, tag__has_namespace_set_type]
          simp only [hpriv]
          rw [if_neg hns]
          refine ⟨fun h0 => absurd h0 hdt, fun small2 hfind2 => ?_⟩
          rw [hfind] at hfind2
          exact (Option.some.inj hfind2) ▸ rfl

/-- The run-1 table pass on a wrapper-free CU leaves every entry
resolved. -/
theorem recode_loop_establishes (cu0 : DwarfCU) (hnw : NoWrapperBitfields cu0) :
    ∀ (fuel : Nat), ∀ (i : Nat) (cuK cuF : DwarfCU),
      1 ≤ i → CUStep cu0 cuK →
      (∀ j, i ≤ j → j < cu0.types.length → cuK.types[j]? = cu0.types[j]?) →
      (∀ j t, 1 ≤ j → j < i → cuK.types[j]? = some t → EntryDone cuK t) →
      recode_table_loop fuel cuK i = some cuF →
      CUDone cuF := by
  intro fuel
  induction fuel with
  | zero =>
    intro i cuK cuF _ _ _ _ hloop
    rw [recode_table_loop] at hloop
    exact Option.noConfusion hloop
  | succ fuel ih =>
    intro i cuK cuF h1 hstep huntouch hdone hloop
    rw [recode_table_loop] at hloop
    by_cases hlt : i < cuK.types.length
    · rw [dif_pos hlt] at hloop
      have hgetK : cuK.types[i]? = some cuK.types[i] := List.getElem?_eq_getElem hlt
      rcases hpriv : (cuK.types[i]).priv with _ | d
      · have hid : tag__recode_dwarf_type (fuel + 1) cuK cuK.types[i] =
            some (cuK, cuK.types[i]) := by
          simp [tag__recode_dwarf_type, hpriv]
        simp only [hid] at hloop
        have hset : ({ cuK with types := cuK.types.set i cuK.types[i] } : DwarfCU)
            = cuK := by
          rw [set_getElem_self cuK.types i cuK.types[i] hgetK]
        rw [hset] at hloop
        refine ih (i + 1) cuK cuF (by omega) hstep
          (fun j hj hj0 => huntouch j (by omega) hj0) (fun j tj hj1 hji hgetj => ?_)
          hloop
        by_cases hji2 : j < i
        · exact hdone j tj hj1 hji2 hgetj
        · have hje : j = i := by omega
          subst hje
          rw [hgetK] at hgetj
          have htj := Option.some.inj hgetj
          simp [EntryDone, ← htj, hpriv]
      · have hi0 : i < cu0.types.length := by
          by_contra hcon
          push_neg at hcon
          have := hstep.2.2.2 i cuK.types[i] hcon hgetK
          rw [hpriv] at this
          exact Option.noConfusion this
        have hsame : cuK.types[i] = cu0.types[i] := by
          have hu := huntouch i le_rfl hi0
          rw [hgetK, List.getElem?_eq_getElem hi0] at hu
          exact Option.some.inj hu
        have hok : ∀ m ∈ (cuK.types[i]).members, m.bitfield_size ≠ 0 →
            member_target_ok cuK m = true := by
          intro m hm hbf
          have hm0 : m ∈ (cu0.types[i]).members := by rw [← hsame]; exact hm
          have hmem0 : cu0.types[i] ∈ cu0.types := List.getElem_mem hi0
          exact member_target_ok_mono cu0 cuK m hstep
            (hnw cu0.types[i] hmem0 m hm0 hbf)
        obtain ⟨cu2, t2, hrec, happ, hskel, hentry⟩ :=
          recode_entry_establishes fuel cuK cuK.types[i] hok
        simp only [hrec] at hloop
        have hget2 : cu2.types[i]? = some cuK.types[i] := by
          rw [CUAppends_getElem cuK cu2 happ i hlt]
          exact hgetK
        have hstep_set : CUStep cu2 { cu2 with types := cu2.types.set i t2 } :=
          CUStep_set cu2 i cuK.types[i] t2 hget2 hskel
        have hstepK2 : CUStep cuK { cu2 with types := cu2.types.set i t2 } :=
          CUStep_trans cuK cu2 _ (CUAppends_step cuK cu2 happ) hstep_set
        refine ih (i + 1) { cu2 with types := cu2.types.set i t2 } cuF (by omega)
          (CUStep_trans cu0 cuK _ hstep hstepK2) ?_ ?_ hloop
        · intro j hj hj0
          show (cu2.types.set i t2)[j]? = cu0.types[j]?
          rw [List.getElem?_set_ne (by omega)]
          rw [CUAppends_getElem cuK cu2 happ j
            (by have := hstep.2.1; omega)]
          exact huntouch j (by omega) hj0
        · intro j tj hj1 hji hgetj
          by_cases hji2 : j < i
          · have hgetjK : cuK.types[j]? = some tj := by
              have hne : (cu2.types.set i t2)[j]? = cu2.types[j]? :=
                List.getElem?_set_ne (by omega)
              have hgetj2 : (cu2.types.set i t2)[j]? = some tj := hgetj
              rw [hne] at hgetj2
              rw [CUAppends_getElem cuK cu2 happ j (by omega)] at hgetj2
              exact hgetj2
            exact EntryDone_mono cuK _ tj hstepK2 (hdone j tj hj1 hji2 hgetjK)
          · have hje : j = i := by omega
            subst hje
            have hj2 : j < cu2.types.length := by
              have hle := (CUAppends_step cuK cu2 happ).2.1
              omega
            have hself : (cu2.types.set j t2)[j]? = some t2 :=
              List.getElem?_set_self hj2
            have hgetj2 : (cu2.types.set j t2)[j]? = some tj := hgetj
            rw [hself] at hgetj2
            obtain rfl := Option.some.inj hgetj2
            exact EntryDone_mono cu2 _ t2 hstep_set hentry
    · rw [dif_neg hlt] at hloop
      obtain rfl : cuK = cuF := Option.some.inj hloop
      intro j tj hj hget
      have hjlen : j < cuK.types.length := (List.getElem?_eq_some.mp hget).1
      exact hdone j tj hj (by omega) hget

/-- Executable form of `NoWrapperBitfields`. -/
def no_wrapper_bitfields (cu : DwarfCU) : Bool :=
  cu.types.all (fun t => t.members.all
    (fun m => m.bitfield_size == 0 || member_target_ok cu m))

theorem no_wrapper_bitfields_sound (cu : DwarfCU)
    (h : no_wrapper_bitfields cu = true) : NoWrapperBitfields cu := by
  intro t ht m hm hbf
  have h1 := (List.all_eq_true.mp h) t ht
  have h2 := (List.all_eq_true.mp h1) m hm
  simp only [Bool.or_eq_true, beq_iff_eq] at h2
  rcases h2 with h2 | h2
  · exact absurd h2 hbf
  · exact h2

/-- C6 amended: running the types-table reference-resolution pass a
second time on an already-resolved CU yields exactly the same table —
no new entries, no resolved-field changes — provided every bitfield
member's raw type resolves directly to a base or enumeration type
(whose synthesis is memoized by the name+width lookup).  When the chain
passes through a typedef/const/volatile wrapper, the second run
allocates a duplicate wrapper, as the counterexample shows. -/
theorem resolver_idempotent_without_wrappers
    (cu0 cu1 : DwarfCU) (fuel1 : Nat) (hnw : NoWrapperBitfields cu0)
    (hrun1 : cu__recode_dwarf_types fuel1 cu0 = some cu1) :
    ∀ fuel2 : Nat, cu1.types.length ≤ fuel2 + 1 →
      cu__recode_dwarf_types (fuel2 + 1) cu1 = some cu1 := by
  intro fuel2 hf
  have hdone : CUDone cu1 := recode_loop_establishes cu0 hnw fuel1 1 cu0 cu1
    le_rfl (CUStep_refl cu0) (fun j _ _ => rfl)
    (fun j t h1 h2 _ => absurd h2 (by omega)) hrun1
  exact recode_loop_done cu1 hdone fuel2 1 (by omega) le_rfl

/-- C6 witness CU: `int` (small id 1, raw 11) and a struct (small id 2,
raw 12) with one bitfield member of width 3 directly over `int`. -/
def cuNoWrapEx : DwarfCU :=
  { types := [ {},
      { tag := DW_TAG_base_type, name := 1, bit_size := 32, priv := some {} },
      { tag := DW_TAG_structure_type, name := 3, priv := some {}, members := [{ name := 4, bitfield_size := 3, dtype := 11 }] } ],
    hash_types := [(11, 1), (12, 2)] }

/-- `cuNoWrapEx` after one resolver pass. -/
def cuNoWrapExRec : DwarfCU := (cu__recode_dwarf_types 8 cuNoWrapEx).getD {}

/-- C6 witness: on the wrapper-free CU, the first pass appends the 3-bit
`int` and a second pass returns the table unchanged. -/
theorem resolver_idempotent_without_wrappers_witness :
    cu__recode_dwarf_types 8 cuNoWrapEx = some cuNoWrapExRec ∧
    cu__recode_dwarf_types 8 cuNoWrapExRec = some cuNoWrapExRec :=
  ⟨rfl, resolver_idempotent_without_wrappers cuNoWrapEx cuNoWrapExRec 8
    (no_wrapper_bitfields_sound cuNoWrapEx (by decide)) rfl 7 (by decide)⟩

end DwarfLoader
